import Mathlib

/-!
Verification of the skill-loader core against its natural-language
specification.  The TypeScript sources under `src/` are embedded shallowly:
strings are `String` / `List Char`, the JS regular expressions used by the
security validator are embedded as explicit scanning functions (each regex in
the source uses only literal characters, character-class runs that are
followed by a character outside the class, and ordered alternation, so
greedy maximal-munch scanning coincides with the JS engine's behaviour),
and network effects are modelled by explicit oracles and state passing.
-/

set_option maxHeartbeats 1000000
set_option maxRecDepth 8000

namespace SkillLoader

/-- Membership in the JS regex class \s, restricted to the ASCII range
(space, tab, LF, CR, VT, FF). -/
def isJsSpace (c : Char) : Bool :=
  c.toNat = 32 || c.toNat = 9 || c.toNat = 10 || c.toNat = 13 ||
  c.toNat = 11 || c.toNat = 12

/-- ASCII lowercasing of one character; embeds `String.prototype.toLowerCase`
(and the `i` regex flag) on the ASCII range. -/
def toLowerChar (c : Char) : Char :=
  if 65 ≤ c.toNat && c.toNat ≤ 90 then Char.ofNat (c.toNat + 32) else c

/-- Membership in the JS regex class \w (ASCII letters, digits, underscore). -/
def isWordChar (c : Char) : Bool :=
  (97 ≤ c.toNat && c.toNat ≤ 122) || (65 ≤ c.toNat && c.toNat ≤ 90) ||
  (48 ≤ c.toNat && c.toNat ≤ 57) || c.toNat = 95

/-- Match a literal pattern (given in lowercase) case-insensitively at the
head of the input; returns the consumed characters and the remainder. -/
def matchLitCI : List Char → List Char → Option (List Char × List Char)
  | [], l => some ([], l)
  | _ :: _, [] => none
  | p :: ps, c :: cs =>
    if toLowerChar c = p then
      match matchLitCI ps cs with
      | some (m, r) => some (c :: m, r)
      | none => none
    else none

/-- The JS word-boundary assertion \b placed before a word character: it
holds at the start of the input or after a non-word character. -/
def atWordBoundary (prev : Option Char) : Bool :=
  match prev with
  | none => true
  | some c => !isWordChar c

/-- Embeds the regex /rm\s+-rf/gi matched at the current position. -/
def matchRmRf (_prev : Option Char) (l : List Char) : Option (List Char) :=
  match matchLitCI ['r', 'm'] l with
  | none => none
  | some (m1, r1) =>
    let sp := r1.takeWhile isJsSpace
    let r2 := r1.dropWhile isJsSpace
    if sp.isEmpty then none
    else
      match matchLitCI ['-', 'r', 'f'] r2 with
      | none => none
      | some (m2, _) => some (m1 ++ sp ++ m2)

/-- Embeds the regex /\bsudo\s+/gi matched at the current position. -/
def matchSudo (prev : Option Char) (l : List Char) : Option (List Char) :=
  if !atWordBoundary prev then none
  else
    match matchLitCI ['s', 'u', 'd', 'o'] l with
    | none => none
    | some (m1, r1) =>
      let sp := r1.takeWhile isJsSpace
      if sp.isEmpty then none else some (m1 ++ sp)

/-- Embeds the regexes /\beval\s*\(/gi and /\bexec\s*\(/gi (instantiated with
the word between \b and \s*). -/
def matchCallPat (word : List Char) (prev : Option Char) (l : List Char) :
    Option (List Char) :=
  if !atWordBoundary prev then none
  else
    match matchLitCI word l with
    | none => none
    | some (m1, r1) =>
      let sp := r1.takeWhile isJsSpace
      let r2 := r1.dropWhile isJsSpace
      match r2 with
      | '(' :: _ => some (m1 ++ sp ++ ['('])
      | _ => none

/-- Embeds the regexes /curl[^|]*\|\s*(bash|sh)/gi and
/wget[^|]*\|\s*(bash|sh)/gi (instantiated with the leading word). -/
def matchPipeToShell (word : List Char) (_prev : Option Char) (l : List Char) :
    Option (List Char) :=
  match matchLitCI word l with
  | none => none
  | some (m1, r1) =>
    let mid := r1.takeWhile (fun c => c ≠ '|')
    let r2 := r1.dropWhile (fun c => c ≠ '|')
    match r2 with
    | '|' :: r3 =>
      let sp := r3.takeWhile isJsSpace
      let r4 := r3.dropWhile isJsSpace
      match matchLitCI ['b', 'a', 's', 'h'] r4 with
      | some (mb, _) => some (m1 ++ mid ++ '|' :: (sp ++ mb))
      | none =>
        match matchLitCI ['s', 'h'] r4 with
        | some (ms, _) => some (m1 ++ mid ++ '|' :: (sp ++ ms))
        | none => none
    | _ => none

/-- Embeds a purely literal case-insensitive regex such as /\/etc\//gi or
/~\/\./gi (the pattern is given in lowercase). -/
def matchLit (pat : List Char) (_prev : Option Char) (l : List Char) :
    Option (List Char) :=
  match matchLitCI pat l with
  | none => none
  | some (m, _) => some m

/-- Embeds the regexes /\$\x7b[^\x7d]+\x7d/g and /\$\([^)]+\)/g: a dollar
sign, an opening delimiter, a nonempty run of characters other than the
closing delimiter, and the closing delimiter. -/
def matchDollarDelim (openC closeC : Char) (_prev : Option Char)
    (l : List Char) : Option (List Char) :=
  match l with
  | '$' :: c :: r2 =>
    if c = openC then
      let mid := r2.takeWhile (fun d => d ≠ closeC)
      let r3 := r2.dropWhile (fun d => d ≠ closeC)
      if mid.isEmpty then none
      else
        match r3 with
        | d :: _ => if d = closeC then some ('$' :: c :: (mid ++ [closeC])) else none
        | [] => none
    else none
  | _ => none

/-- One match produced by a global regex scan: the start index and the
matched text (JS `match.index` and `match[0]`). -/
structure PatMatch where
  idx : Nat
  text : List Char
deriving DecidableEq

/-- Embeds `String.prototype.matchAll` with a /g regex: scan left to right;
at each position try the pattern (passing the previous character for \b);
on a match record it and resume after the matched text (advancing at least
one character, as JS does for empty matches), otherwise advance by one. -/
def matchAllGo (m : Option Char → List Char → Option (List Char)) :
    Nat → Option Char → List Char → List PatMatch
  | _, _, [] => []
  | idx, prev, c :: rest =>
    match m prev (c :: rest) with
    | some matched =>
      let len := max matched.length 1
      { idx := idx, text := matched } ::
        matchAllGo m (idx + len) ((c :: rest).take len).getLast?
          ((c :: rest).drop len)
    | none => matchAllGo m (idx + 1) (some c) rest
termination_by _ _ l => l.length
decreasing_by
  all_goals simp only [List.length_drop, List.length_cons]
  · omega
  · omega

/-- All matches of one embedded pattern over the whole content. -/
def matchAll (m : Option Char → List Char → Option (List Char))
    (content : List Char) : List PatMatch :=
  matchAllGo m 0 none content

/-- Embeds `getLineNumber`: `content.substring(0, index).split(n).length`,
i.e. one plus the number of newline characters strictly before the index. -/
def getLineNumber (content : List Char) (idx : Nat) : Nat :=
  ((content.take idx).filter (fun c => c = '\n')).length + 1

/-- The three issue categories of `SecurityIssue.type`. -/
inductive IssueType
  | dangerous_command
  | suspicious_pattern
  | untrusted_source
deriving DecidableEq

/-- Embeds the `SecurityIssue` interface. -/
structure SecurityIssue where
  type : IssueType
  description : String
  location : String
deriving DecidableEq

/-- Embeds `SecurityValidator.DANGEROUS_PATTERNS`. -/
def DANGEROUS_PATTERNS :
    List ((Option Char → List Char → Option (List Char)) × String) :=
  [ (matchRmRf, "Dangerous recursive delete command (rm -rf)"),
    (matchSudo, "Elevated privilege command (sudo)"),
    (matchCallPat ['e', 'v', 'a', 'l'], "Code evaluation (eval)"),
    (matchCallPat ['e', 'x', 'e', 'c'], "Code execution (exec)"),
    (matchPipeToShell ['c', 'u', 'r', 'l'], "Piping curl output to shell"),
    (matchPipeToShell ['w', 'g', 'e', 't'], "Piping wget output to shell") ]

/-- Embeds `SecurityValidator.SUSPICIOUS_FILE_OPS`. -/
def SUSPICIOUS_FILE_OPS :
    List ((Option Char → List Char → Option (List Char)) × String) :=
  [ (matchLit ['/', 'e', 't', 'c', '/'],
      "Access to system configuration directory (/etc/)"),
    (matchLit ['/', 'u', 's', 'r', '/'],
      "Access to system binaries directory (/usr/)"),
    (matchLit ['/', 'b', 'i', 'n', '/'],
      "Access to system binaries directory (/bin/)"),
    (matchLit ['~', '/', '.'],
      "Access to hidden files in home directory") ]

/-- Embeds `SecurityValidator.CODE_INJECTION_PATTERNS`. -/
def CODE_INJECTION_PATTERNS :
    List ((Option Char → List Char → Option (List Char)) × String) :=
  [ (matchDollarDelim (Char.ofNat 123) (Char.ofNat 125),
      "Variable expansion pattern ($\x7b...\x7d)"),
    (matchDollarDelim '(' ')',
      "Command substitution pattern ($(...)") ]

/-- The common shape of the three scan loops: for each pattern in the table,
every match becomes one issue of the given type, with the pattern's
description and a "Line n: text" location. -/
def scanPatterns (itype : IssueType)
    (pats : List ((Option Char → List Char → Option (List Char)) × String))
    (content : List Char) : List SecurityIssue :=
  pats.flatMap (fun pd =>
    (matchAll pd.1 content).map (fun pm =>
      { type := itype, description := pd.2,
        location := "Line " ++ toString (getLineNumber content pm.idx) ++ ": "
          ++ String.mk pm.text }))

/-- Embeds `SecurityValidator.scanForDangerousPatterns`. -/
def scanForDangerousPatterns (content : List Char) : List SecurityIssue :=
  scanPatterns IssueType.dangerous_command DANGEROUS_PATTERNS content

/-- Embeds `SecurityValidator.scanForSuspiciousFileOps`. -/
def scanForSuspiciousFileOps (content : List Char) : List SecurityIssue :=
  scanPatterns IssueType.suspicious_pattern SUSPICIOUS_FILE_OPS content

/-- Embeds `SecurityValidator.scanForCodeInjection`. -/
def scanForCodeInjection (content : List Char) : List SecurityIssue :=
  scanPatterns IssueType.suspicious_pattern CODE_INJECTION_PATTERNS content

/-- Embeds the `SkillContent` fields consumed by the validator. -/
structure SkillContent where
  raw : String
  url : String

/-- The three severity levels; the source's string value for the third one is
a Lean keyword, so it is named `unsafeLevel` here. -/
inductive Severity
  | safe
  | warning
  | unsafeLevel
deriving DecidableEq

/-- Embeds the `ValidationResult` interface. -/
structure ValidationResult where
  isValid : Bool
  issues : List SecurityIssue
  severity : Severity
deriving DecidableEq

/-- Embeds `SecurityValidator.isUrlTrusted`. -/
def isUrlTrusted (url : String) : Bool :=
  url.startsWith "https://raw.githubusercontent.com/"

/-- Embeds `SecurityValidator.determineSeverity` (the two local constants
`hasUntrustedSource` and `hasDangerousCommand` of the source are inlined). -/
def determineSeverity (issues : List SecurityIssue) : Severity :=
  if issues.length = 0 then Severity.safe
  else if issues.any (fun i => i.type == IssueType.untrusted_source) ||
          issues.any (fun i => i.type == IssueType.dangerous_command) then
    Severity.unsafeLevel
  else Severity.warning

/-- Embeds `SecurityValidator.validate`. -/
def validate (content : SkillContent) : ValidationResult :=
  let raw := content.raw.toList
  let issues :=
    (if !isUrlTrusted content.url then
      [{ type := IssueType.untrusted_source,
         description := "Content does not originate from trusted GitHub domain",
         location := content.url : SecurityIssue }]
     else []) ++
    scanForDangerousPatterns raw ++
    scanForSuspiciousFileOps raw ++
    scanForCodeInjection raw
  let severity := determineSeverity issues
  { isValid := severity != Severity.unsafeLevel,
    issues := issues,
    severity := severity }

/-- Contiguous-sublist check on character lists (executable). -/
def includesL (needle : List Char) : List Char → Bool
  | [] => needle.isPrefixOf []
  | c :: cs => needle.isPrefixOf (c :: cs) || includesL needle cs

/-- Embeds `String.prototype.includes`: substring containment. -/
def strIncludes (hay needle : String) : Bool :=
  includesL needle.toList hay.toList

theorem exists_of_includesL (needle : List Char) :
    ∀ hay : List Char, includesL needle hay = true →
      ∃ u v : List Char, hay = u ++ (needle ++ v) := by
  intro hay
  induction hay with
  | nil =>
    intro h
    simp only [includesL] at h
    have : needle <+: ([] : List Char) := List.isPrefixOf_iff_prefix.mp h
    obtain ⟨t, ht⟩ := this
    refine ⟨[], [], ?_⟩
    simp at ht ⊢
    simp [ht.1]
  | cons c cs ih =>
    intro h
    simp only [includesL, Bool.or_eq_true] at h
    rcases h with h | h
    · obtain ⟨t, ht⟩ := List.isPrefixOf_iff_prefix.mp h
      exact ⟨[], t, by simp [← ht]⟩
    · obtain ⟨u, v, huv⟩ := ih h
      exact ⟨c :: u, v, by simp [huv]⟩

theorem scanPatterns_mem_type {t : IssueType}
    {ps : List ((Option Char → List Char → Option (List Char)) × String)}
    {c : List Char} {i : SecurityIssue}
    (h : i ∈ scanPatterns t ps c) : i.type = t := by
  simp only [scanPatterns, List.mem_flatMap, List.mem_map] at h
  obtain ⟨pd, _, pm, _, rfl⟩ := h
  rfl

theorem determineSeverity_eq_safe_iff (issues : List SecurityIssue) :
    determineSeverity issues = Severity.safe ↔ issues = [] := by
  unfold determineSeverity
  by_cases h0 : issues.length = 0
  · rw [if_pos h0]
    rw [List.length_eq_zero] at h0
    simp [h0]
  · rw [if_neg h0]
    have hne : issues ≠ [] := fun hc => h0 (by simp [hc])
    by_cases h1 : (issues.any (fun i => i.type == IssueType.untrusted_source) ||
        issues.any (fun i => i.type == IssueType.dangerous_command)) = true
    · rw [if_pos h1]; simp [hne]
    · rw [if_neg h1]; simp [hne]

theorem determineSeverity_eq_unsafeLevel_iff (issues : List SecurityIssue) :
    determineSeverity issues = Severity.unsafeLevel ↔
      ∃ i ∈ issues, i.type = IssueType.untrusted_source ∨
        i.type = IssueType.dangerous_command := by
  unfold determineSeverity
  by_cases h0 : issues.length = 0
  · rw [if_pos h0]
    rw [List.length_eq_zero] at h0
    subst h0
    simp
  · rw [if_neg h0]
    by_cases h1 : (issues.any (fun i => i.type == IssueType.untrusted_source) ||
        issues.any (fun i => i.type == IssueType.dangerous_command)) = true
    · rw [if_pos h1]
      simp only [Bool.or_eq_true, List.any_eq_true, beq_iff_eq] at h1
      simp only [true_iff]
      rcases h1 with ⟨j, hj, hty⟩ | ⟨j, hj, hty⟩
      · exact ⟨j, hj, Or.inl hty⟩
      · exact ⟨j, hj, Or.inr hty⟩
    · rw [if_neg h1]
      simp only [Bool.or_eq_true, List.any_eq_true, beq_iff_eq, not_or] at h1
      push_neg at h1
      constructor
      · intro hc
        exact absurd hc (by simp)
      · rintro ⟨j, hj, hty | hty⟩
        · exact absurd hty (h1.1 j hj)
        · exact absurd hty (h1.2 j hj)

theorem determineSeverity_eq_warning_iff (issues : List SecurityIssue) :
    determineSeverity issues = Severity.warning ↔
      issues ≠ [] ∧ ∀ i ∈ issues, i.type = IssueType.suspicious_pattern := by
  unfold determineSeverity
  by_cases h0 : issues.length = 0
  · rw [if_pos h0]
    rw [List.length_eq_zero] at h0
    subst h0
    simp
  · have hne : issues ≠ [] := fun hc => h0 (by simp [hc])
    rw [if_neg h0]
    by_cases h1 : (issues.any (fun i => i.type == IssueType.untrusted_source) ||
        issues.any (fun i => i.type == IssueType.dangerous_command)) = true
    · rw [if_pos h1]
      simp only [Bool.or_eq_true, List.any_eq_true, beq_iff_eq] at h1
      constructor
      · intro hc
        exact absurd hc (by simp)
      · rintro ⟨-, hall⟩
        exfalso
        rcases h1 with ⟨j, hj, hty⟩ | ⟨j, hj, hty⟩ <;>
        · have hs := hall j hj
          rw [hs] at hty
          exact absurd hty (by simp)
    · rw [if_neg h1]
      simp only [Bool.or_eq_true, List.any_eq_true, beq_iff_eq, not_or] at h1
      push_neg at h1
      simp only [ne_eq, hne, not_false_eq_true, true_and, true_iff]
      intro j hj
      cases hty : j.type
      · exact absurd hty (h1.2 j hj)
      · rfl
      · exact absurd hty (h1.1 j hj)

theorem matchAllGo_ne_nil (m : Option Char → List Char → Option (List Char))
    (w : List Char) (hw : w ≠ [])
    (hm : ∀ prev v, m prev (w ++ v) ≠ none) :
    ∀ (u v : List Char) (idx : Nat) (prev : Option Char),
      matchAllGo m idx prev (u ++ (w ++ v)) ≠ [] := by
  intro u
  induction u with
  | nil =>
    intro v idx prev
    rcases hww : w with _ | ⟨c, cs⟩
    · exact absurd hww hw
    · subst hww
      simp only [List.nil_append, List.cons_append, matchAllGo]
      have := hm prev v
      simp only [List.cons_append] at this
      rcases hmv : m prev (c :: (cs ++ v)) with _ | matched
      · exact absurd hmv this
      · simp
  | cons c u ih =>
    intro v idx prev
    simp only [List.cons_append, matchAllGo]
    rcases hmv : m prev (c :: (u ++ (w ++ v))) with _ | matched
    · exact ih v (idx + 1) (some c)
    · simp

theorem matchRmRf_at (prev : Option Char) (v : List Char) :
    matchRmRf prev
      ('r' :: 'm' :: ' ' :: '-' :: 'r' :: 'f' :: v) =
      some ['r', 'm', ' ', '-', 'r', 'f'] := rfl

theorem scanForDangerousPatterns_ne_nil {content : List Char}
    (h : includesL "rm -rf /".toList content = true) :
    scanForDangerousPatterns content ≠ [] := by
  obtain ⟨u, v, huv⟩ := exists_of_includesL _ _ h
  have hneedle : "rm -rf /".toList = ['r', 'm', ' ', '-', 'r', 'f', ' ', '/'] := rfl
  rw [hneedle] at huv
  subst huv
  have hmatch : ∀ prev v',
      matchRmRf prev (['r', 'm', ' ', '-', 'r', 'f', ' ', '/'] ++ v') ≠ none := by
    intro prev v'
    simp only [List.cons_append, List.nil_append]
    rw [matchRmRf_at prev (' ' :: '/' :: v')]
    simp
  have hall := matchAllGo_ne_nil matchRmRf _ (by simp) hmatch u v 0 none
  intro hc
  unfold scanForDangerousPatterns scanPatterns DANGEROUS_PATTERNS at hc
  simp only [List.flatMap_cons, List.append_eq_nil] at hc
  have hmap := hc.1
  rw [List.map_eq_nil_iff] at hmap
  exact hall hmap

theorem validate_issues_eq (text url : String) :
    (validate { raw := text, url := url }).issues =
      (if !isUrlTrusted url then
        [{ type := IssueType.untrusted_source,
           description := "Content does not originate from trusted GitHub domain",
           location := url : SecurityIssue }]
       else []) ++
      scanForDangerousPatterns text.toList ++
      scanForSuspiciousFileOps text.toList ++
      scanForCodeInjection text.toList := by
  simp only [validate]

theorem validate_severity_eq (c : SkillContent) :
    (validate c).severity = determineSeverity (validate c).issues := by
  simp only [validate]

theorem validate_isValid_eq (c : SkillContent) :
    (validate c).isValid = ((validate c).severity != Severity.unsafeLevel) := by
  simp only [validate]

/-- C1: for every input (text, url), `validate` returns severity safe exactly
when the issue list is empty, the blocking severity exactly when some issue
has type untrusted_source or dangerous_command, warning otherwise (only
suspicious_pattern issues), and isValid is true exactly when the severity is
not the blocking one; moreover any text containing "rm -rf /" with an
untrusted url yields the blocking severity with at least two issues, one
dangerous_command and one untrusted_source. -/
theorem validate_severity_spec (text url : String) :
    ((validate { raw := text, url := url }).severity = Severity.safe ↔
      (validate { raw := text, url := url }).issues = []) ∧
    ((validate { raw := text, url := url }).severity = Severity.unsafeLevel ↔
      ∃ i ∈ (validate { raw := text, url := url }).issues,
        i.type = IssueType.untrusted_source ∨
        i.type = IssueType.dangerous_command) ∧
    ((validate { raw := text, url := url }).severity = Severity.warning ↔
      (validate { raw := text, url := url }).issues ≠ [] ∧
      ∀ i ∈ (validate { raw := text, url := url }).issues,
        i.type = IssueType.suspicious_pattern) ∧
    ((validate { raw := text, url := url }).isValid = true ↔
      (validate { raw := text, url := url }).severity ≠ Severity.unsafeLevel) ∧
    (strIncludes text "rm -rf /" = true → isUrlTrusted url = false →
      (validate { raw := text, url := url }).severity = Severity.unsafeLevel ∧
      (∃ i ∈ (validate { raw := text, url := url }).issues,
        i.type = IssueType.dangerous_command) ∧
      (∃ i ∈ (validate { raw := text, url := url }).issues,
        i.type = IssueType.untrusted_source) ∧
      2 ≤ (validate { raw := text, url := url }).issues.length) := by
  refine ⟨?_, ?_, ?_, ?_, ?_⟩
  · rw [validate_severity_eq]
    exact determineSeverity_eq_safe_iff _
  · rw [validate_severity_eq]
    exact determineSeverity_eq_unsafeLevel_iff _
  · rw [validate_severity_eq]
    exact determineSeverity_eq_warning_iff _
  · rw [validate_isValid_eq]
    constructor
    · intro h
      simpa using h
    · intro h
      simpa using h
  · intro hinc huntrusted
    have hdang : scanForDangerousPatterns text.toList ≠ [] :=
      scanForDangerousPatterns_ne_nil (by simpa [strIncludes] using hinc)
    rcases hd : scanForDangerousPatterns text.toList with _ | ⟨iD, rest⟩
    · exact absurd hd hdang
    have hmemD0 : iD ∈ scanForDangerousPatterns text.toList := by
      rw [hd]
      exact List.mem_cons_self _ _
    have htyD : iD.type = IssueType.dangerous_command :=
      scanPatterns_mem_type hmemD0
    have hiss := validate_issues_eq text url
    rw [huntrusted] at hiss
    simp only [Bool.not_false, if_true] at hiss
    rw [hd] at hiss
    have hmemD : iD ∈ (validate { raw := text, url := url }).issues := by
      rw [hiss]; simp
    have hmemU :
        ({ type := IssueType.untrusted_source,
           description := "Content does not originate from trusted GitHub domain",
           location := url : SecurityIssue }) ∈
          (validate { raw := text, url := url }).issues := by
      rw [hiss]; simp
    refine ⟨?_, ⟨iD, hmemD, htyD⟩, ⟨_, hmemU, rfl⟩, ?_⟩
    · rw [validate_severity_eq, determineSeverity_eq_unsafeLevel_iff]
      exact ⟨_, hmemU, Or.inl rfl⟩
    · rw [hiss]
      simp only [List.length_append, List.length_cons, List.singleton_append]
      omega

/-! Kebab-casing (`ConversionEngine.toKebabCase`) and its idempotence. -/

/-- Drop the maximal run of characters satisfying `p` at the end. -/
def dropTrailing (p : Char → Bool) (l : List Char) : List Char :=
  (l.reverse.dropWhile p).reverse

/-- Drop maximal `p`-runs at both ends; embeds both `String.prototype.trim`
(with `p` the whitespace class) and `replace(/^-+|-0+$/g, "")` with `p` the
hyphen class (the regex there is `^-+|-+$`). -/
def trimEnds (p : Char → Bool) (l : List Char) : List Char :=
  dropTrailing p (l.dropWhile p)

/-- Replace every maximal nonempty run of characters satisfying `p` by the
single character `r`; embeds `replace(/[\s_]+/g, "-")` and
the hyphen-run collapse (regex: one or more hyphens, global). -/
def collapseRuns (p : Char → Bool) (r : Char) : List Char → List Char
  | [] => []
  | c :: cs =>
    if p c then r :: collapseRuns p r (cs.dropWhile p)
    else c :: collapseRuns p r cs
termination_by l => l.length
decreasing_by
  · have := (List.dropWhile_suffix p (l := cs)).sublist.length_le
    simp only [List.length_cons]
    omega
  · simp

/-- The character class `[\s_]` of the first replacement. -/
def isSpaceOrUnderscore (c : Char) : Bool := isJsSpace c || c.toNat = 95

/-- The character class kept by `replace(/[^a-z0-9-]/g, "")`. -/
def isKebabKeep (c : Char) : Bool :=
  (97 ≤ c.toNat && c.toNat ≤ 122) || (48 ≤ c.toNat && c.toNat ≤ 57) ||
  c.toNat = 45

/-- The hyphen class of the hyphen-run collapse and the end trim. -/
def isHyphen (c : Char) : Bool := c == '-'

/-- Embeds `ConversionEngine.toKebabCase` on character lists: trim,
lowercase, collapse whitespace/underscore runs to single hyphens, strip
characters outside a-z 0-9 hyphen, collapse hyphen runs, trim hyphens. -/
def toKebabCaseL (l : List Char) : List Char :=
  trimEnds isHyphen
    (collapseRuns isHyphen '-'
      (List.filter isKebabKeep
        (collapseRuns isSpaceOrUnderscore '-'
          (List.map toLowerChar (trimEnds isJsSpace l)))))

/-- Embeds `ConversionEngine.toKebabCase`. -/
def toKebabCase (s : String) : String := String.mk (toKebabCaseL s.toList)

theorem dropWhile_head_false (p : Char → Bool) :
    ∀ (l : List Char) (d : Char), (l.dropWhile p).head? = some d → p d = false := by
  intro l
  induction l with
  | nil => intro d h; simp [List.dropWhile] at h
  | cons c cs ih =>
    intro d h
    by_cases hc : p c = true
    · rw [List.dropWhile_cons_of_pos hc] at h
      exact ih d h
    · rw [List.dropWhile_cons_of_neg hc] at h
      simp only [List.head?_cons, Option.some.injEq] at h
      subst h
      exact Bool.not_eq_true _ |>.mp hc

theorem dropWhile_eq_self_of_head (p : Char → Bool) (l : List Char)
    (h : ∀ c ∈ l, p c = false) : l.dropWhile p = l := by
  cases l with
  | nil => rfl
  | cons c cs => exact List.dropWhile_cons_of_neg (by simp [h c (by simp)])

theorem collapseRuns_eq_self_of_not (p : Char → Bool) (r : Char) :
    ∀ l : List Char, (∀ c ∈ l, p c = false) → collapseRuns p r l = l := by
  intro l
  induction l using collapseRuns.induct p r with
  | case1 => intro _; simp [collapseRuns]
  | case2 c cs hc ih =>
    intro h
    exact absurd hc (by simp [h c (by simp)])
  | case3 c cs hc ih =>
    intro h
    rw [collapseRuns, if_neg hc, ih (fun d hd => h d (by simp [hd]))]

/-- Every character of a collapsed list comes from the input or is the
replacement character. -/
theorem collapseRuns_mem (p : Char → Bool) (r : Char) :
    ∀ l : List Char, ∀ c ∈ collapseRuns p r l, c ∈ l ∨ c = r := by
  intro l
  induction l using collapseRuns.induct p r with
  | case1 => intro c hc; simp [collapseRuns] at hc
  | case2 d ds hd ih =>
    intro c hc
    rw [collapseRuns, if_pos hd] at hc
    rcases List.mem_cons.mp hc with h | h
    · exact Or.inr h
    · rcases ih c h with h2 | h2
      · exact Or.inl (List.mem_cons_of_mem d ((List.dropWhile_suffix p).subset h2))
      · exact Or.inr h2
  | case3 d ds hd ih =>
    intro c hc
    rw [collapseRuns, if_neg hd] at hc
    rcases List.mem_cons.mp hc with h | h
    · exact Or.inl (h ▸ List.mem_cons_self d ds)
    · rcases ih c h with h2 | h2
      · exact Or.inl (List.mem_cons_of_mem d h2)
      · exact Or.inr h2

/-- The head of a collapsed list of a list starting with a non-`p`
character is that character. -/
theorem collapseRuns_head_of_neg (p : Char → Bool) (r : Char) (d : Char)
    (ds : List Char) (hd : p d = false) :
    (collapseRuns p r (d :: ds)).head? = some d := by
  rw [collapseRuns, if_neg (by simp [hd])]
  rfl

/-- A collapsed list never has two adjacent characters that both satisfy
`p`. -/
theorem collapseRuns_chain' (p : Char → Bool) (r : Char) :
    ∀ l : List Char,
      List.Chain' (fun a b => p a = false ∨ p b = false) (collapseRuns p r l) := by
  intro l
  induction l using collapseRuns.induct p r with
  | case1 => simp [collapseRuns]
  | case2 d ds hd ih =>
    rw [collapseRuns, if_pos hd]
    rw [List.chain'_cons']
    refine ⟨?_, ih⟩
    intro y hy
    cases hds : ds.dropWhile p with
    | nil => rw [hds] at hy; simp [collapseRuns] at hy
    | cons e es =>
      rw [hds] at hy
      have he : p e = false := dropWhile_head_false p ds e (by rw [hds]; rfl)
      rw [collapseRuns_head_of_neg p r e es he] at hy
      simp only [Option.mem_def, Option.some.injEq] at hy
      subst hy
      exact Or.inr he
  | case3 d ds hd ih =>
    rw [collapseRuns, if_neg hd]
    rw [List.chain'_cons']
    refine ⟨?_, ih⟩
    intro y _
    exact Or.inl (by simpa using hd)

/-- Collapsing hyphen runs is the identity on lists without adjacent
hyphens. -/
theorem collapseRuns_hyphen_eq_self :
    ∀ l : List Char,
      List.Chain' (fun a b => isHyphen a = false ∨ isHyphen b = false) l →
      collapseRuns isHyphen '-' l = l := by
  intro l
  induction l with
  | nil => intro _; simp [collapseRuns]
  | cons c cs ih =>
    intro h
    rw [List.chain'_cons'] at h
    rw [collapseRuns]
    by_cases hc : isHyphen c = true
    · rw [if_pos hc]
      have hceq : c = '-' := by simpa [isHyphen] using hc
      have hdw : cs.dropWhile isHyphen = cs := by
        cases cs with
        | nil => rfl
        | cons e es =>
          have := h.1 e (by rfl)
          rcases this with h1 | h1
          · rw [hc] at h1; cases h1
          · exact List.dropWhile_cons_of_neg (by simp [h1])
      rw [hdw, ih h.2, hceq]
    · rw [if_neg hc]
      rw [ih h.2]

/-- The normal form produced by kebab-casing: only a-z 0-9 hyphen, no
adjacent hyphens, no hyphen at either end. -/
def KebabForm (l : List Char) : Prop :=
  (∀ c ∈ l, isKebabKeep c = true) ∧
  List.Chain' (fun a b => isHyphen a = false ∨ isHyphen b = false) l ∧
  (∀ c, l.head? = some c → isHyphen c = false) ∧
  (∀ c, l.getLast? = some c → isHyphen c = false)

theorem trimEnds_sublist (p : Char → Bool) (l : List Char) :
    List.Sublist (trimEnds p l) l := by
  unfold trimEnds dropTrailing
  have h1 : List.Sublist ((l.dropWhile p).reverse.dropWhile p)
      (l.dropWhile p).reverse :=
    (List.dropWhile_suffix p).sublist
  have h2 : List.Sublist ((l.dropWhile p).reverse.dropWhile p).reverse
      (l.dropWhile p) := by
    have := h1.reverse
    simpa using this
  exact h2.trans (List.dropWhile_suffix p).sublist

theorem trimEnds_infixOfList (p : Char → Bool) (l : List Char) :
    trimEnds p l <:+: l := by
  unfold trimEnds dropTrailing
  have h1 : (l.dropWhile p).reverse.dropWhile p <:+ (l.dropWhile p).reverse :=
    List.dropWhile_suffix p
  have h2 : ((l.dropWhile p).reverse.dropWhile p).reverse <+: l.dropWhile p := by
    obtain ⟨t, ht⟩ := h1
    refine ⟨t.reverse, ?_⟩
    have : (t ++ (l.dropWhile p).reverse.dropWhile p).reverse = l.dropWhile p := by
      rw [ht]; simp
    simpa using this
  exact h2.isInfix.trans (List.dropWhile_suffix p).isInfix

theorem trimEnds_head_false (p : Char → Bool) (l : List Char) (c : Char)
    (h : (trimEnds p l).head? = some c) : p c = false := by
  unfold trimEnds dropTrailing at h
  set m := l.dropWhile p with hm
  have hpre : (m.reverse.dropWhile p).reverse <+: m := by
    obtain ⟨t, ht⟩ := List.dropWhile_suffix p (l := m.reverse)
    refine ⟨t.reverse, ?_⟩
    have : (t ++ m.reverse.dropWhile p).reverse = m := by rw [ht]; simp
    simpa using this
  obtain ⟨t, ht⟩ := hpre
  have hhead : m.head? = some c := by
    rw [← ht]
    cases hx : (m.reverse.dropWhile p).reverse with
    | nil => rw [hx] at h; simp at h
    | cons a as =>
      rw [hx] at h
      simp only [List.head?_cons, Option.some.injEq] at h
      subst h
      rfl
  exact dropWhile_head_false p l c (by rw [← hm] at *; exact hhead)

theorem trimEnds_getLast_false (p : Char → Bool) (l : List Char) (c : Char)
    (h : (trimEnds p l).getLast? = some c) : p c = false := by
  unfold trimEnds dropTrailing at h
  rw [← List.head?_reverse] at h
  simp only [List.reverse_reverse] at h
  exact dropWhile_head_false p (l.dropWhile p).reverse c h

theorem trimEnds_eq_self (p : Char → Bool) (l : List Char)
    (hh : ∀ c, l.head? = some c → p c = false)
    (hl : ∀ c, l.getLast? = some c → p c = false) :
    trimEnds p l = l := by
  unfold trimEnds dropTrailing
  have h1 : l.dropWhile p = l := by
    cases l with
    | nil => rfl
    | cons c cs => exact List.dropWhile_cons_of_neg (by simp [hh c rfl])
  rw [h1]
  have h2 : l.reverse.dropWhile p = l.reverse := by
    cases hx : l.reverse with
    | nil => rfl
    | cons c cs =>
      have : l.getLast? = some c := by
        rw [← List.head?_reverse, hx]; rfl
      rw [hx] at *
      exact List.dropWhile_cons_of_neg (by simp [hl c this])
  rw [h2, List.reverse_reverse]

theorem map_toLowerChar_eq_self (l : List Char)
    (h : ∀ c ∈ l, isKebabKeep c = true) : l.map toLowerChar = l := by
  induction l with
  | nil => rfl
  | cons c cs ih =>
    have hc := h c (by simp)
    have hlow : toLowerChar c = c := by
      unfold toLowerChar
      rw [if_neg]
      simp only [isKebabKeep, Bool.or_eq_true, Bool.and_eq_true,
        decide_eq_true_eq] at hc
      simp only [Bool.and_eq_true, decide_eq_true_eq, not_and]
      omega
    simp only [List.map_cons, hlow, List.cons.injEq, true_and]
    exact ih (fun d hd => h d (by simp [hd]))

theorem isKebabKeep_not_spaceOrUnderscore (c : Char)
    (h : isKebabKeep c = true) : isSpaceOrUnderscore c = false := by
  simp only [isKebabKeep, Bool.or_eq_true, Bool.and_eq_true,
    decide_eq_true_eq] at h
  simp only [isSpaceOrUnderscore, isJsSpace, Bool.or_eq_false_iff,
    decide_eq_false_iff_not]
  omega

theorem mem_of_head?_eq {l : List Char} {a : Char} (h : l.head? = some a) :
    a ∈ l := by
  cases l with
  | nil => simp at h
  | cons c cs =>
    simp only [List.head?_cons, Option.some.injEq] at h
    simp [h]

theorem mem_of_getLast?_eq {l : List Char} {a : Char} (h : l.getLast? = some a) :
    a ∈ l := by
  obtain ⟨hne, heq⟩ := List.mem_getLast?_eq_getLast (x := a) (by rw [h]; rfl)
  rw [heq]
  exact List.getLast_mem hne

/-- The output of kebab-casing is in kebab normal form. -/
theorem toKebabCaseL_kebabForm (l : List Char) : KebabForm (toKebabCaseL l) := by
  unfold toKebabCaseL
  set s4 := List.filter isKebabKeep
    (collapseRuns isSpaceOrUnderscore '-'
      (List.map toLowerChar (trimEnds isJsSpace l))) with hs4
  set s5 := collapseRuns isHyphen '-' s4 with hs5
  refine ⟨?_, ?_, ?_, ?_⟩
  · intro c hc
    have hc5 : c ∈ s5 := (trimEnds_sublist isHyphen s5).subset hc
    rcases collapseRuns_mem isHyphen '-' s4 c hc5 with h | h
    · exact (List.mem_filter.mp h).2
    · subst h; decide
  · exact List.Chain'.infix (collapseRuns_chain' isHyphen '-' s4)
      (trimEnds_infixOfList isHyphen s5)
  · intro c hc
    exact trimEnds_head_false isHyphen s5 c hc
  · intro c hc
    exact trimEnds_getLast_false isHyphen s5 c hc

/-- Kebab-casing is the identity on kebab normal forms. -/
theorem toKebabCaseL_eq_self_of_kebabForm (l : List Char) (h : KebabForm l) :
    toKebabCaseL l = l := by
  obtain ⟨hall, hchain, hhead, hlast⟩ := h
  have hnospace : ∀ c ∈ l, isJsSpace c = false := by
    intro c hc
    have := isKebabKeep_not_spaceOrUnderscore c (hall c hc)
    simp only [isSpaceOrUnderscore, Bool.or_eq_false_iff] at this
    exact this.1
  unfold toKebabCaseL
  rw [trimEnds_eq_self isJsSpace l
    (fun c hc => hnospace c (mem_of_head?_eq hc))
    (fun c hc => hnospace c (mem_of_getLast?_eq hc))]
  rw [map_toLowerChar_eq_self l hall]
  rw [collapseRuns_eq_self_of_not isSpaceOrUnderscore '-' l
    (fun c hc => isKebabKeep_not_spaceOrUnderscore c (hall c hc))]
  rw [List.filter_eq_self.mpr hall]
  rw [collapseRuns_hyphen_eq_self l hchain]
  exact trimEnds_eq_self isHyphen l hhead hlast

/-! Section extraction (`ConversionEngine.extractSections`). -/

/-- Embeds `String.prototype.trim` (whitespace at both ends). -/
def jsTrim (s : String) : String := String.mk (trimEnds isJsSpace s.toList)

/-- Embeds the `SkillSection` interface. -/
structure SkillSection where
  heading : String
  content : String
  level : Nat
deriving DecidableEq

/-- The loop state of `extractSections`: emitted sections, the open section
(heading and level; its content is assigned when it is closed), the
accumulated content lines, and the fenced-code-block toggle. -/
structure SectionState where
  sections : List SkillSection
  cur : Option (String × Nat)
  content : List String
  inCodeBlock : Bool
deriving DecidableEq

/-- The initial loop state. -/
def initState : SectionState :=
  { sections := [], cur := none, content := [], inCodeBlock := false }

/-- Embeds the fence test: the trimmed line starts with three backticks. -/
def isFenceLine (line : String) : Bool :=
  "```".toList.isPrefixOf (trimEnds isJsSpace line.toList)

/-- Embeds the heading regex (one to six leading hash characters, then
whitespace, then at least one more character): returns the level and the
trimmed heading text.  The heading group is everything after the maximal
whitespace run; when the line is hashes followed only by whitespace of
length at least two, the regex backtracks and captures a single whitespace
character, whose trim is empty — both cases give the trimmed remainder. -/
def headerMatch (line : String) : Option (Nat × String) :=
  let cs := line.toList
  let k := (cs.takeWhile (fun c => c == '#')).length
  let rest := cs.drop k
  let ws := rest.takeWhile isJsSpace
  let r2 := rest.dropWhile isJsSpace
  if 1 ≤ k ∧ k ≤ 6 ∧ ws ≠ [] ∧ (r2 ≠ [] ∨ 2 ≤ ws.length) then
    some (k, jsTrim (String.mk r2))
  else none

/-- One iteration of the `extractSections` loop: toggle the fence state on a
fence line, then (only outside a fence) a heading line closes the open
section and starts a new one; every other line is accumulated. -/
def stepLine (st : SectionState) (line : String) : SectionState :=
  let inCode := if isFenceLine line then !st.inCodeBlock else st.inCodeBlock
  match headerMatch line with
  | some (level, heading) =>
    if inCode then
      { st with content := st.content ++ [line], inCodeBlock := inCode }
    else
      let sections :=
        match st.cur with
        | some hl =>
          st.sections ++ [{ heading := hl.1, level := hl.2,
                            content := jsTrim (String.intercalate "\n" st.content) }]
        | none => st.sections
      { sections := sections, cur := some (heading, level), content := [],
        inCodeBlock := inCode }
  | none =>
    { st with content := st.content ++ [line], inCodeBlock := inCode }

/-- The epilogue of `extractSections`: close the open section, or wrap the
whole accumulated content in one synthetic section when no heading was ever
seen and the content is nonempty. -/
def finalizeSections (st : SectionState) : List SkillSection :=
  match st.cur with
  | some hl =>
    st.sections ++ [{ heading := hl.1, level := hl.2,
                      content := jsTrim (String.intercalate "\n" st.content) }]
  | none =>
    if st.content.length > 0 then
      st.sections ++ [{ heading := "Content",
                        content := jsTrim (String.intercalate "\n" st.content),
                        level := 1 }]
    else st.sections

/-- `extractSections` on an explicit list of lines. -/
def extractSectionsLines (lines : List String) : List SkillSection :=
  finalizeSections (lines.foldl stepLine initState)

/-- Splitting a character list at every occurrence of a separator; embeds
the JS `split` with a one-character separator (an empty input gives one
empty piece, a trailing separator gives a trailing empty piece). -/
def splitOnChar (sep : Char) : List Char → List (List Char)
  | [] => [[]]
  | c :: cs =>
    let r := splitOnChar sep cs
    if c = sep then [] :: r
    else
      match r with
      | [] => [[c]]
      | h :: t => (c :: h) :: t

/-- The body split into lines, as `body.split` does in the source. -/
def splitLines (s : String) : List String :=
  (splitOnChar '\n' s.toList).map String.mk

/-- Embeds `ConversionEngine.extractSections`. -/
def extractSections (body : String) : List SkillSection :=
  extractSectionsLines (splitLines body)

theorem dropTrailing_prefix (p : Char → Bool) (l : List Char) :
    dropTrailing p l <+: l := by
  unfold dropTrailing
  obtain ⟨t, ht⟩ := List.dropWhile_suffix p (l := l.reverse)
  refine ⟨t.reverse, ?_⟩
  have : (t ++ l.reverse.dropWhile p).reverse = l := by rw [ht]; simp
  simpa using this

theorem prefix_head?_eq {x y : List Char} (h : x <+: y) {c : Char}
    (hx : x.head? = some c) : y.head? = some c := by
  obtain ⟨t, rfl⟩ := h
  cases x with
  | nil => simp at hx
  | cons a as =>
    simp only [List.head?_cons, Option.some.injEq] at hx
    simp [hx]

theorem headerMatch_head {line : String} {x : Nat × String}
    (h : headerMatch line = some x) : line.toList.head? = some '#' := by
  simp only [headerMatch] at h
  split at h
  case isFalse => exact absurd h (by simp)
  case isTrue hcond =>
    have h1 := hcond.1
    cases hcs : line.toList with
    | nil => rw [hcs] at h1; simp at h1
    | cons c cs =>
      rw [hcs] at h1
      by_cases hc : (c == '#') = true
      · simp only [List.head?_cons, Option.some.injEq]
        exact (beq_iff_eq.mp hc).symm ▸ rfl
      · rw [List.takeWhile_cons_of_neg (by simpa using hc)] at h1
        simp at h1

theorem isFenceLine_eq_false_of_headerMatch {line : String} {x : Nat × String}
    (h : headerMatch line = some x) : isFenceLine line = false := by
  have hhead := headerMatch_head h
  by_contra hc
  rw [Bool.not_eq_false] at hc
  unfold isFenceLine at hc
  have hpre : ("```".toList) <+: trimEnds isJsSpace line.toList :=
    List.isPrefixOf_iff_prefix.mp hc
  have htick : (trimEnds isJsSpace line.toList).head? = some '`' :=
    prefix_head?_eq hpre rfl
  have hdw : line.toList.dropWhile isJsSpace = line.toList := by
    cases hcs : line.toList with
    | nil => rfl
    | cons c cs =>
      rw [hcs] at hhead
      simp only [List.head?_cons, Option.some.injEq] at hhead
      subst hhead
      exact List.dropWhile_cons_of_neg (by decide)
  have hpre2 : trimEnds isJsSpace line.toList <+: line.toList := by
    unfold trimEnds
    rw [hdw]
    exact dropTrailing_prefix isJsSpace line.toList
  have := prefix_head?_eq hpre2 htick
  rw [hhead] at this
  simp at this

theorem headerMatch_eq_none_of_fence {line : String}
    (h : isFenceLine line = true) : headerMatch line = none := by
  cases hm : headerMatch line with
  | none => rfl
  | some x => rw [isFenceLine_eq_false_of_headerMatch hm] at h; cases h

/-- Lines that are not fences and are either inside a code block or not
heading-shaped only accumulate content. -/
theorem foldl_stepLine_append_only :
    ∀ (lines : List String) (st : SectionState),
      (∀ l ∈ lines, isFenceLine l = false ∧
        (st.inCodeBlock = true ∨ headerMatch l = none)) →
      lines.foldl stepLine st = { st with content := st.content ++ lines } := by
  intro lines
  induction lines with
  | nil => intro st _; simp
  | cons l ls ih =>
    intro st h
    have hl := h l (by simp)
    have hstep : stepLine st l = { st with content := st.content ++ [l] } := by
      unfold stepLine
      rcases hl.2 with hin | hm
      · cases hmm : headerMatch l with
        | none => simp [hl.1, hmm]
        | some x => simp [hl.1, hmm, hin]
      · simp [hl.1, hm]
    rw [List.foldl_cons, hstep]
    have := ih { st with content := st.content ++ [l] }
      (fun m hm => ⟨(h m (by simp [hm])).1, by
        rcases (h m (by simp [hm])).2 with hin | hmm
        · exact Or.inl hin
        · exact Or.inr hmm⟩)
    rw [this]
    simp

/-- A fence line toggles the code-block state and accumulates. -/
theorem stepLine_fence (st : SectionState) (l : String)
    (hf : isFenceLine l = true) :
    stepLine st l =
      { st with content := st.content ++ [l], inCodeBlock := !st.inCodeBlock } := by
  unfold stepLine
  rw [headerMatch_eq_none_of_fence hf]
  simp [hf]

/-- A heading line seen outside a fence with no open section starts the
first section, discarding the accumulated preamble content. -/
theorem stepLine_first_heading (st : SectionState) (l : String)
    (lv : Nat) (hd : String) (hm : headerMatch l = some (lv, hd))
    (hsec : st.sections = []) (hcur : st.cur = none)
    (hin : st.inCodeBlock = false) :
    stepLine st l =
      { sections := [], cur := some (hd, lv), content := [],
        inCodeBlock := false } := by
  have hf := isFenceLine_eq_false_of_headerMatch hm
  unfold stepLine
  rw [hm]
  simp [hf, hin, hcur, hsec]

/-- C7: section splitting never starts a new section at a line inside a
fenced code block: a heading-shaped line is recognized only when the fence
toggle is off, and a body whose only hash-prefixed lines lie inside a single
backtick fence parses to exactly one section spanning that fence. -/
theorem extractSections_fence_spec :
    (∀ (st : SectionState) (line : String) (lv : Nat) (hd : String),
      st.inCodeBlock = true → headerMatch line = some (lv, hd) →
      stepLine st line = { st with content := st.content ++ [line] }) ∧
    (∀ (body : String) (pre mid post : List String) (fo fc : String),
      splitLines body = pre ++ fo :: (mid ++ fc :: post) →
      (∀ l ∈ pre, isFenceLine l = false ∧ headerMatch l = none) →
      isFenceLine fo = true →
      (∀ l ∈ mid, isFenceLine l = false) →
      isFenceLine fc = true →
      (∀ l ∈ post, isFenceLine l = false ∧ headerMatch l = none) →
      extractSections body =
        [{ heading := "Content",
           content := jsTrim (String.intercalate "\n"
             (pre ++ fo :: (mid ++ fc :: post))),
           level := 1 }]) := by
  constructor
  · intro st line lv hd hin hm
    have hf := isFenceLine_eq_false_of_headerMatch hm
    unfold stepLine
    rw [hm]
    simp [hf, hin]
  · intro body pre mid post fo fc hsplit hpre hfo hmid hfc hpost
    unfold extractSections extractSectionsLines
    rw [hsplit]
    rw [List.foldl_append, List.foldl_cons]
    rw [foldl_stepLine_append_only pre initState
      (fun l hl => ⟨(hpre l hl).1, Or.inr (hpre l hl).2⟩)]
    rw [stepLine_fence _ fo hfo]
    rw [List.foldl_append, List.foldl_cons]
    have hmid2 : ∀ l ∈ mid, isFenceLine l = false ∧
        (({ { initState with content := initState.content ++ pre } with
            content := ({ initState with content := initState.content ++ pre }).content ++ [fo],
            inCodeBlock := !({ initState with content := initState.content ++ pre }).inCodeBlock }
          : SectionState).inCodeBlock = true ∨ headerMatch l = none) := by
      intro l hl
      exact ⟨hmid l hl, Or.inl rfl⟩
    rw [foldl_stepLine_append_only mid _ hmid2]
    rw [stepLine_fence _ fc hfc]
    rw [foldl_stepLine_append_only post _
      (fun l hl => ⟨(hpost l hl).1, Or.inr (hpost l hl).2⟩)]
    unfold finalizeSections initState
    simp

/-- C10: when a heading line (recognized outside a fence) is preceded by a
preamble in which no section was opened, the parse result equals the parse
of the document starting at that heading: the preamble lines appear in no
section.  When no line is ever recognized as a heading or fence, the whole
line list becomes a single synthetic section. -/
theorem extractSections_preamble_spec :
    (∀ (body : String) (pre rest : List String) (ht : String) (lv : Nat)
        (hd : String),
      splitLines body = pre ++ ht :: rest →
      headerMatch ht = some (lv, hd) →
      (pre.foldl stepLine initState).sections = [] →
      (pre.foldl stepLine initState).cur = none →
      (pre.foldl stepLine initState).inCodeBlock = false →
      extractSections body = extractSectionsLines (ht :: rest)) ∧
    (∀ lines : List String, lines ≠ [] →
      (∀ l ∈ lines, isFenceLine l = false ∧ headerMatch l = none) →
      extractSectionsLines lines =
        [{ heading := "Content",
           content := jsTrim (String.intercalate "\n" lines),
           level := 1 }]) := by
  constructor
  · intro body pre rest ht lv hd hsplit hm hsec hcur hin
    unfold extractSections extractSectionsLines
    rw [hsplit]
    rw [List.foldl_append, List.foldl_cons, List.foldl_cons]
    rw [stepLine_first_heading _ ht lv hd hm hsec hcur hin]
    rw [stepLine_first_heading initState ht lv hd hm rfl rfl rfl]
  · intro lines hne hall
    unfold extractSectionsLines
    rw [foldl_stepLine_append_only lines initState
      (fun l hl => ⟨(hall l hl).1, Or.inr (hall l hl).2⟩)]
    unfold finalizeSections initState
    simp only [List.nil_append]
    have : 0 < lines.length := List.length_pos.mpr hne
    simp only [gt_iff_lt, this, if_pos]

/-- Witness for C7: a concrete body whose only hash line sits inside a
single fence parses to one section spanning the fence, and a concrete
heading line inside an open fence only accumulates. -/
theorem extractSections_fence_spec_witness :
    stepLine { sections := [], cur := none, content := ["```"],
               inCodeBlock := true } "# inside"
      = { sections := [], cur := none, content := ["```", "# inside"],
          inCodeBlock := true } ∧
    extractSections "intro\n```\n# not a heading\n```\nafter" =
      [{ heading := "Content",
         content := "intro\n```\n# not a heading\n```\nafter",
         level := 1 }] := by
  constructor
  · exact extractSections_fence_spec.1
      { sections := [], cur := none, content := ["```"], inCodeBlock := true }
      "# inside" 1 "inside" rfl (by decide)
  · have h := extractSections_fence_spec.2
      "intro\n```\n# not a heading\n```\nafter"
      ["intro"] ["# not a heading"] ["after"] "```" "```"
      (by decide) (by decide) (by decide) (by decide) (by decide) (by decide)
    rw [h]
    decide

/-- Witness for C10: a concrete two-line preamble before the first heading
appears in no section, and a concrete heading-free line list becomes one
synthetic section. -/
theorem extractSections_preamble_spec_witness :
    extractSections "preamble\nmore\n# Head\nbody text" =
      extractSectionsLines ["# Head", "body text"] ∧
    extractSectionsLines ["just", "text"] =
      [{ heading := "Content", content := "just\ntext", level := 1 }] := by
  constructor
  · exact extractSections_preamble_spec.1
      "preamble\nmore\n# Head\nbody text"
      ["preamble", "more"] ["body text"] "# Head" 1 "Head"
      (by decide) (by decide) (by decide) (by decide) (by decide)
  · have h := extractSections_preamble_spec.2 ["just", "text"]
      (by decide) (by decide)
    rw [h]
    decide

/-! Skill parsing (`ConversionEngine.parseSkill`).  The js-yaml library is
not part of this repository; its result is an oracle parameter. -/

/-- A YAML scalar value as the parser's truthiness checks see it. -/
inductive YVal
  | str (s : String)
  | num (n : Int)
  | bool (b : Bool)
deriving DecidableEq

/-- JS truthiness of a field value (empty string, zero and false are
falsy). -/
def YVal.truthy : YVal → Bool
  | str s => !s.isEmpty
  | num n => n != 0
  | bool b => b

/-- The outcome of `yaml.load` on the frontmatter text: a thrown
YAMLException, a falsy null/undefined result, a truthy non-object scalar,
or an object given as its fields (duplicate keys already resolved, as in a
JS object). -/
inductive YamlResult
  | err (msg : String)
  | nullish
  | scalar (v : YVal)
  | obj (fields : List (String × YVal))
deriving DecidableEq

/-- JS property access on the parsed object. -/
def lookupField (fields : List (String × YVal)) (k : String) : Option YVal :=
  (fields.find? (fun f => f.1 == k)).map (fun f => f.2)

/-- Truthiness of `frontmatter.k` (absent fields are undefined, falsy). -/
def fieldTruthy (fields : List (String × YVal)) (k : String) : Bool :=
  match lookupField fields k with
  | none => false
  | some v => v.truthy

/-- The error kinds `parseSkill` raises (`ValidationError` with its field,
`ParsingError` with its format). -/
inductive ParseErr
  | validationError (message : String) (field : String)
  | parsingError (message : String) (format : String)
deriving DecidableEq

/-- Decidable equality of fallible results, used to evaluate the embedded
operations on concrete inputs. -/
instance exceptDecEq {ε α : Type} [DecidableEq ε] [DecidableEq α] :
    DecidableEq (Except ε α) := fun x y =>
  match x, y with
  | Except.error a, Except.error b =>
    if h : a = b then Decidable.isTrue (by rw [h])
    else Decidable.isFalse (by intro hc; cases hc; exact h rfl)
  | Except.error _, Except.ok _ => Decidable.isFalse (by intro hc; cases hc)
  | Except.ok _, Except.error _ => Decidable.isFalse (by intro hc; cases hc)
  | Except.ok a, Except.ok b =>
    if h : a = b then Decidable.isTrue (by rw [h])
    else Decidable.isFalse (by intro hc; cases hc; exact h rfl)

/-- Embeds the `ParsedSkill` interface (the frontmatter is the parsed
object's fields). -/
structure ParsedSkill where
  frontmatter : List (String × YVal)
  body : String
  sections : List SkillSection
deriving DecidableEq

/-- Split at the first occurrence of `sep` (nonempty): the part before it
and the part after it. -/
def splitFirstInfix (sep : List Char) : List Char → Option (List Char × List Char)
  | [] => if sep.isPrefixOf [] then some ([], []) else none
  | c :: cs =>
    if sep.isPrefixOf (c :: cs) then some ([], (c :: cs).drop sep.length)
    else (splitFirstInfix sep cs).map (fun pr => (c :: pr.1, pr.2))

/-- Embeds the frontmatter regex (anchored at the start: three dashes and a
newline, a lazy middle, a newline and three dashes): the captured YAML text
and the length of the whole match. -/
def frontmatterMatch (content : String) : Option (String × Nat) :=
  let cs := content.toList
  if "---\n".toList.isPrefixOf cs then
    match splitFirstInfix "\n---".toList (cs.drop 4) with
    | some pr => some (String.mk pr.1, 4 + pr.1.length + 4)
    | none => none
  else none

/-- Embeds `ConversionEngine.parseSkill`: empty input is rejected; a present
frontmatter block must parse to an object with truthy `name` and
`description`; an absent block is replaced by synthetic defaults; the body
(after the block) is trimmed and split into sections. -/
def parseSkill (yamlLoad : String → YamlResult) (content : String) :
    Except ParseErr ParsedSkill :=
  if (trimEnds isJsSpace content.toList).isEmpty then
    Except.error (ParseErr.validationError "Skill content is empty" "content")
  else
    match frontmatterMatch content with
    | some ym =>
      match yamlLoad ym.1 with
      | YamlResult.err _ =>
        Except.error (ParseErr.parsingError "Failed to parse YAML frontmatter" "yaml")
      | YamlResult.nullish =>
        Except.error (ParseErr.parsingError "YAML frontmatter is not a valid object" "yaml")
      | YamlResult.scalar _ =>
        Except.error (ParseErr.parsingError "YAML frontmatter is not a valid object" "yaml")
      | YamlResult.obj fields =>
        if fieldTruthy fields "name" = false then
          Except.error (ParseErr.validationError
            "Skill frontmatter missing required field: name" "schema")
        else if fieldTruthy fields "description" = false then
          Except.error (ParseErr.validationError
            "Skill frontmatter missing required field: description" "schema")
        else
          let body := jsTrim (String.mk (content.toList.drop ym.2))
          Except.ok { frontmatter := fields, body := body,
                      sections := extractSections body }
    | none =>
      let body := jsTrim content
      let fm : List (String × YVal) :=
        [("name", YVal.str "Untitled Skill"),
         ("description", YVal.str "No description provided")]
      Except.ok { frontmatter := fm, body := body,
                  sections := extractSections body }

/-- C6: parseSkill errors exactly on empty (whitespace-only) input, or on a
present metadata block that does not parse to a mapping (including YAML
errors), or on a present mapping lacking truthy name or description; with no
block it succeeds with synthetic defaults; and every successful parse has a
present, truthy (in particular non-empty) name field. -/
theorem parseSkill_error_spec (yamlLoad : String → YamlResult)
    (content : String) :
    ((∃ e, parseSkill yamlLoad content = Except.error e) ↔
      ((trimEnds isJsSpace content.toList).isEmpty = true ∨
       (∃ ym, frontmatterMatch content = some ym ∧
         ((∀ fields, yamlLoad ym.1 ≠ YamlResult.obj fields) ∨
          (∃ fields, yamlLoad ym.1 = YamlResult.obj fields ∧
            (fieldTruthy fields "name" = false ∨
             fieldTruthy fields "description" = false)))))) ∧
    (frontmatterMatch content = none →
      (trimEnds isJsSpace content.toList).isEmpty = false →
      ∃ doc, parseSkill yamlLoad content = Except.ok doc ∧
        doc.frontmatter =
          [("name", YVal.str "Untitled Skill"),
           ("description", YVal.str "No description provided")]) ∧
    (∀ doc, parseSkill yamlLoad content = Except.ok doc →
      ∃ v, lookupField doc.frontmatter "name" = some v ∧ v.truthy = true) := by
  unfold parseSkill
  by_cases hemp : (trimEnds isJsSpace content.toList).isEmpty = true
  · rw [if_pos hemp]
    refine ⟨⟨fun _ => Or.inl hemp, fun _ => ⟨_, rfl⟩⟩, ?_, ?_⟩
    · intro _ hne
      rw [hemp] at hne
      cases hne
    · intro doc hdoc
      cases hdoc
  · rw [if_neg hemp]
    rw [Bool.not_eq_true] at hemp
    split
    · next ym hfm =>
      split
      · next m hy =>
        refine ⟨⟨fun _ => ?_, fun _ => ⟨_, rfl⟩⟩, ?_, ?_⟩
        · exact Or.inr ⟨ym, hfm, Or.inl (fun fields hc => by rw [hy] at hc; cases hc)⟩
        · intro hnone
          rw [hfm] at hnone
          exact Option.noConfusion hnone
        · intro doc hdoc
          cases hdoc
      · next hy =>
        refine ⟨⟨fun _ => ?_, fun _ => ⟨_, rfl⟩⟩, ?_, ?_⟩
        · exact Or.inr ⟨ym, hfm, Or.inl (fun fields hc => by rw [hy] at hc; cases hc)⟩
        · intro hnone
          rw [hfm] at hnone
          exact Option.noConfusion hnone
        · intro doc hdoc
          cases hdoc
      · next v hy =>
        refine ⟨⟨fun _ => ?_, fun _ => ⟨_, rfl⟩⟩, ?_, ?_⟩
        · exact Or.inr ⟨ym, hfm, Or.inl (fun fields hc => by rw [hy] at hc; cases hc)⟩
        · intro hnone
          rw [hfm] at hnone
          exact Option.noConfusion hnone
        · intro doc hdoc
          cases hdoc
      · next fields hy =>
        by_cases hname : fieldTruthy fields "name" = false
        · rw [if_pos hname]
          refine ⟨⟨fun _ => ?_, fun _ => ⟨_, rfl⟩⟩, ?_, ?_⟩
          · exact Or.inr ⟨ym, hfm, Or.inr ⟨fields, hy, Or.inl hname⟩⟩
          · intro hnone
            rw [hfm] at hnone
            exact Option.noConfusion hnone
          · intro doc hdoc
            cases hdoc
        · rw [if_neg hname]
          by_cases hdesc : fieldTruthy fields "description" = false
          · rw [if_pos hdesc]
            refine ⟨⟨fun _ => ?_, fun _ => ⟨_, rfl⟩⟩, ?_, ?_⟩
            · exact Or.inr ⟨ym, hfm, Or.inr ⟨fields, hy, Or.inr hdesc⟩⟩
            · intro hnone
              rw [hfm] at hnone
              exact Option.noConfusion hnone
            · intro doc hdoc
              cases hdoc
          · rw [if_neg hdesc]
            refine ⟨⟨?_, ?_⟩, ?_, ?_⟩
            · rintro ⟨e, he⟩
              cases he
            · rintro (h | ⟨ym2, hym2, hbad⟩)
              · rw [hemp] at h
                cases h
              · rw [hfm] at hym2
                rcases Option.some.inj hym2 with rfl
                rcases hbad with hno | ⟨fields2, hf2, hbad2⟩
                · exact absurd hy (hno fields)
                · rw [hy] at hf2
                  cases hf2
                  rcases hbad2 with h | h
                  · exact absurd h hname
                  · exact absurd h hdesc
            · intro hnone
              rw [hfm] at hnone
              exact Option.noConfusion hnone
            · intro doc hdoc
              cases hdoc
              rw [Bool.not_eq_false] at hname
              unfold fieldTruthy at hname
              cases hl : lookupField fields "name" with
              | none => rw [hl] at hname; cases hname
              | some v =>
                rw [hl] at hname
                exact ⟨v, rfl, hname⟩
    · next hfm =>
      refine ⟨⟨?_, ?_⟩, ?_, ?_⟩
      · rintro ⟨e, he⟩
        cases he
      · rintro (h | ⟨ym, hym, _⟩)
        · rw [hemp] at h
          cases h
        · rw [hfm] at hym
          exact Option.noConfusion hym
      · intro _ _
        exact ⟨_, rfl, rfl⟩
      · intro doc hdoc
        cases hdoc
        exact ⟨YVal.str "Untitled Skill", rfl, rfl⟩

/-- Witness for C6 at a concrete valid skill document, a concrete document
without a metadata block, and a concrete document missing `description`. -/
theorem parseSkill_error_spec_witness :
    (∃ doc, parseSkill
        (fun _ => YamlResult.obj
          [("name", YVal.str "Test"), ("description", YVal.str "Demo")])
        "---\nname: Test\ndescription: Demo\n---\n\n# Test\n\nBody"
        = Except.ok doc ∧
      (∃ v, lookupField doc.frontmatter "name" = some v ∧ v.truthy = true)) ∧
    (∃ doc, parseSkill (fun _ => YamlResult.nullish) "no frontmatter here"
        = Except.ok doc ∧
      doc.frontmatter =
        [("name", YVal.str "Untitled Skill"),
         ("description", YVal.str "No description provided")]) ∧
    (∃ e, parseSkill (fun _ => YamlResult.obj [("name", YVal.str "Test")])
        "---\nname: Test\n---\nBody" = Except.error e) := by
  refine ⟨?_, ?_, ?_⟩
  · refine ⟨ParsedSkill.mk
      [("name", YVal.str "Test"), ("description", YVal.str "Demo")]
      "# Test\n\nBody"
      [SkillSection.mk "Test" "Body" 1], by decide, ?_⟩
    exact (parseSkill_error_spec
      (fun _ => YamlResult.obj
        [("name", YVal.str "Test"), ("description", YVal.str "Demo")])
      "---\nname: Test\ndescription: Demo\n---\n\n# Test\n\nBody").2.2
      _ (by decide)
  · obtain ⟨doc, hdoc, hfm⟩ := (parseSkill_error_spec
      (fun _ => YamlResult.nullish) "no frontmatter here").2.1
      (by decide) (by decide)
    exact ⟨doc, hdoc, hfm⟩
  · exact ((parseSkill_error_spec (fun _ => YamlResult.obj
      [("name", YVal.str "Test")]) "---\nname: Test\n---\nBody").1).mpr
      (Or.inr ⟨("name: Test", 18), by decide,
        Or.inr ⟨[("name", YVal.str "Test")], by decide, Or.inr (by decide)⟩⟩)

/-- C8: kebabCase is idempotent: applying `toKebabCase` twice gives the
same result as applying it once, for every string. -/
theorem toKebabCase_idempotent (s : String) :
    toKebabCase (toKebabCase s) = toKebabCase s := by
  unfold toKebabCase
  have : (String.mk (toKebabCaseL s.toList)).toList = toKebabCaseL s.toList := rfl
  rw [this]
  rw [toKebabCaseL_eq_self_of_kebabForm _ (toKebabCaseL_kebabForm s.toList)]

/-- Witness for C1 at a concrete dangerous text and untrusted url. -/
theorem validate_severity_spec_witness :
    strIncludes "setup then rm -rf / afterwards" "rm -rf /" = true ∧
    isUrlTrusted "https://evil.example/skill.md" = false ∧
    (validate { raw := "setup then rm -rf / afterwards",
                url := "https://evil.example/skill.md" }).severity =
      Severity.unsafeLevel ∧
    2 ≤ (validate { raw := "setup then rm -rf / afterwards",
                    url := "https://evil.example/skill.md" }).issues.length := by
  have h := validate_severity_spec "setup then rm -rf / afterwards"
    "https://evil.example/skill.md"
  have hs := h.2.2.2.2 (by decide) (by decide)
  exact ⟨by decide, by decide, hs.1, hs.2.2.2⟩

/-! Identifier resolution (`SkillResolver`). -/

/-- Embeds `SkillShEntry` (the optional leaderboard metadata sub-object is
not consumed by resolution and is omitted). -/
structure SkillShEntry where
  name : String
  owner : String
  repo : String
  installs : Nat
  description : Option String
deriving DecidableEq

/-- Embeds `SkillShMetadata` as attached to a resolved skill. -/
structure SkillShMetadata where
  installs : Nat
  trending : Bool
deriving DecidableEq

/-- The `source` discriminator of a `ResolvedSkill`. -/
inductive SkillSource
  | github
  | skillsSh
deriving DecidableEq

/-- Embeds `ResolvedSkill`. -/
structure ResolvedSkill where
  owner : String
  repo : String
  skillPath : String
  fullUrl : String
  source : SkillSource
  metadata : Option SkillShMetadata
deriving DecidableEq

/-- The error kinds the resolver raises (`SkillResolutionError` with its
suggestions list, `NetworkError` for the directory fetch). -/
inductive ResolveErr
  | resolutionError (message : String) (identifier : String)
      (suggestions : List String)
  | networkError (message : String) (url : String)
deriving DecidableEq

/-- Embeds `String.prototype.toLowerCase` (ASCII range). -/
def jsToLower (s : String) : String := String.mk (s.toList.map toLowerChar)

/-- The identifier split on the separator, as `identifier.split` does. -/
def splitSlash (s : String) : List String :=
  (splitOnChar '/' s.toList).map String.mk

/-- Embeds `SkillResolver.resolveFromGitHub`: two nonempty segments are
owner and short skill name (conventional repository `agent-skills`), three
or more are owner, repo and path (prefixed with `skills/` unless already so
marked), fewer than two fail with a format error. -/
def resolveFromGitHub (identifier : String) : Except ResolveErr ResolvedSkill :=
  let parts := (splitSlash identifier).filter (fun part => part.length > 0)
  match parts with
  | [] =>
    Except.error (ResolveErr.resolutionError "Invalid identifier format"
      identifier ["Try: owner/repo", "Try: owner/repo/skill-name"])
  | [_] =>
    Except.error (ResolveErr.resolutionError "Invalid identifier format"
      identifier ["Try: owner/repo", "Try: owner/repo/skill-name"])
  | [owner, skillName] =>
    let repo := "agent-skills"
    let skillPath := "skills/" ++ skillName
    let fullUrl := "https://raw.githubusercontent.com/" ++ owner ++ "/" ++ repo
      ++ "/main/" ++ skillPath ++ "/SKILL.md"
    Except.ok (ResolvedSkill.mk owner repo skillPath fullUrl
      SkillSource.github none)
  | owner :: repo :: first :: restParts =>
    let remainingParts := first :: restParts
    let skillPath :=
      if first = "skills" then String.intercalate "/" remainingParts
      else "skills/" ++ String.intercalate "/" remainingParts
    let fullUrl := "https://raw.githubusercontent.com/" ++ owner ++ "/" ++ repo
      ++ "/main/" ++ skillPath ++ "/SKILL.md"
    Except.ok (ResolvedSkill.mk owner repo skillPath fullUrl
      SkillSource.github none)

/-- Embeds `SkillResolver.skillShEntryToResolvedSkill`. -/
def skillShEntryToResolvedSkill (entry : SkillShEntry) : ResolvedSkill :=
  let skillPath := "skills/" ++ entry.name
  let fullUrl := "https://raw.githubusercontent.com/" ++ entry.owner ++ "/"
    ++ entry.repo ++ "/main/" ++ skillPath ++ "/SKILL.md"
  ResolvedSkill.mk entry.owner entry.repo skillPath fullUrl
    SkillSource.skillsSh (some (SkillShMetadata.mk entry.installs false))

/-- The exact-equality test of the matcher (case-insensitive). -/
def isExactMatch (identifier : String) (skill : SkillShEntry) : Bool :=
  jsToLower skill.name == jsToLower identifier

/-- The candidate test of the matcher: exact equality or substring
containment (case-insensitive). -/
def isCandidateMatch (identifier : String) (skill : SkillShEntry) : Bool :=
  isExactMatch identifier skill ||
  strIncludes (jsToLower skill.name) (jsToLower identifier)

/-- The matching logic of `SkillResolver.resolveFromSkillsSh`, given the
fetched directory listing: no candidate is a not-found error, a unique
candidate resolves, several candidates resolve to the first exact match if
one exists and are an ambiguous error listing every owner/repo/name
otherwise. -/
def resolveFromSkillsShList (skills : List SkillShEntry) (identifier : String) :
    Except ResolveErr ResolvedSkill :=
  match skills.filter (isCandidateMatch identifier) with
  | [] =>
    Except.error (ResolveErr.resolutionError
      ("Skill \"" ++ identifier ++ "\" not found in skills.sh directory")
      identifier
      ["Try using owner/repo format instead", "Search skills.sh for available skills"])
  | [single] => Except.ok (skillShEntryToResolvedSkill single)
  | _ :: _ :: _ =>
    match (skills.filter (isCandidateMatch identifier)).find?
        (isExactMatch identifier) with
    | some exactMatch => Except.ok (skillShEntryToResolvedSkill exactMatch)
    | none =>
      Except.error (ResolveErr.resolutionError
        ("Multiple skills match \"" ++ identifier ++ "\"") identifier
        ((skills.filter (isCandidateMatch identifier)).map
          (fun s => s.owner ++ "/" ++ s.repo ++ "/" ++ s.name)))

/-- The resolver's directory cache: the listing and its capture timestamp. -/
structure ResolverState where
  skillsCache : Option (List SkillShEntry × Nat)
deriving DecidableEq

/-- The cache time-to-live (one hour in milliseconds). -/
def CACHE_TTL : Nat := 60 * 60 * 1000

/-- Embeds `SkillResolver.fetchSkillsDirectory`.  The HTTP GET of the
skills.sh page together with its HTML extraction is the oracle `dirFetch`;
`now` is the clock.  Returns the listing (or error), the new cache state,
and how many network fetches were performed. -/
def fetchSkillsDirectory (dirFetch : Except String (List SkillShEntry))
    (now : Nat) (st : ResolverState) :
    Except ResolveErr (List SkillShEntry) × ResolverState × Nat :=
  match st.skillsCache with
  | some cache =>
    if now - cache.2 < CACHE_TTL then (Except.ok cache.1, st, 0)
    else
      match dirFetch with
      | Except.ok skills =>
        (Except.ok skills, { skillsCache := some (skills, now) }, 1)
      | Except.error _ => (Except.ok cache.1, st, 1)
  | none =>
    match dirFetch with
    | Except.ok skills =>
      (Except.ok skills, { skillsCache := some (skills, now) }, 1)
    | Except.error _ =>
      (Except.error (ResolveErr.networkError
        "Failed to fetch skills.sh directory" "https://skills.sh"), st, 1)

/-- Embeds `SkillResolver.resolveFromSkillsSh`: fetch the listing (through
the cache) and run the matcher. -/
def resolveFromSkillsSh (dirFetch : Except String (List SkillShEntry))
    (now : Nat) (st : ResolverState) (identifier : String) :
    Except ResolveErr ResolvedSkill × ResolverState × Nat :=
  match fetchSkillsDirectory dirFetch now st with
  | (Except.ok skills, st2, n) => (resolveFromSkillsShList skills identifier, st2, n)
  | (Except.error e, st2, n) => (Except.error e, st2, n)

/-- Embeds `SkillResolver.resolve`: identifiers with a separator are
explicit coordinates, simple names are looked up in the directory. -/
def resolve (dirFetch : Except String (List SkillShEntry)) (now : Nat)
    (st : ResolverState) (identifier : String) :
    Except ResolveErr ResolvedSkill × ResolverState × Nat :=
  if identifier.toList.contains '/' then
    (resolveFromGitHub identifier, st, 0)
  else
    resolveFromSkillsSh dirFetch now st identifier

/-- C5: among several candidates an exact match wins outright, and several
candidates with no exact match are an ambiguous error listing every
owner/repo/name candidate — resolution never picks one. -/
theorem resolveFromSkillsShList_spec (skills : List SkillShEntry)
    (identifier : String) :
    (1 < (skills.filter (isCandidateMatch identifier)).length →
      (∃ e ∈ skills.filter (isCandidateMatch identifier),
        isExactMatch identifier e = true) →
      ∃ e, (skills.filter (isCandidateMatch identifier)).find?
          (isExactMatch identifier) = some e ∧
        isExactMatch identifier e = true ∧
        resolveFromSkillsShList skills identifier =
          Except.ok (skillShEntryToResolvedSkill e)) ∧
    (1 < (skills.filter (isCandidateMatch identifier)).length →
      (∀ e ∈ skills.filter (isCandidateMatch identifier),
        isExactMatch identifier e = false) →
      resolveFromSkillsShList skills identifier =
        Except.error (ResolveErr.resolutionError
          ("Multiple skills match \"" ++ identifier ++ "\"") identifier
          ((skills.filter (isCandidateMatch identifier)).map
            (fun s => s.owner ++ "/" ++ s.repo ++ "/" ++ s.name)))) := by
  unfold resolveFromSkillsShList
  cases hm : skills.filter (isCandidateMatch identifier) with
  | nil =>
    refine ⟨?_, ?_⟩ <;> · intro hlen; simp at hlen
  | cons a tail =>
    cases tail with
    | nil =>
      refine ⟨?_, ?_⟩ <;> · intro hlen; simp at hlen
    | cons b rest =>
      constructor
      · intro _ hex
        cases hf : (a :: b :: rest).find? (isExactMatch identifier) with
        | none =>
          rw [List.find?_eq_none] at hf
          obtain ⟨e, he, hexact⟩ := hex
          exact absurd hexact (by simpa using hf e he)
        | some e =>
          exact ⟨e, rfl, List.find?_some hf, rfl⟩
      · intro _ hnone
        have hf : (a :: b :: rest).find? (isExactMatch identifier) = none := by
          rw [List.find?_eq_none]
          intro x hx
          simp [hnone x hx]
        rw [hf]

/-- Witness for C5: the directory holding both `pdf-extractor` and `pdf`
resolves `"pdf"` to the `pdf` coordinate, and two non-exact candidates for
`"pd"` are an ambiguous error listing both. -/
theorem resolveFromSkillsShList_spec_witness :
    resolveFromSkillsShList
      [SkillShEntry.mk "pdf-extractor" "own1" "repo1" 100 none,
       SkillShEntry.mk "pdf" "own2" "repo2" 50 none] "pdf" =
      Except.ok (skillShEntryToResolvedSkill
        (SkillShEntry.mk "pdf" "own2" "repo2" 50 none)) ∧
    resolveFromSkillsShList
      [SkillShEntry.mk "pdf-extractor" "own1" "repo1" 100 none,
       SkillShEntry.mk "pdx" "own2" "repo2" 50 none] "pd" =
      Except.error (ResolveErr.resolutionError
        "Multiple skills match \"pd\"" "pd"
        ["own1/repo1/pdf-extractor", "own2/repo2/pdx"]) := by
  constructor
  · obtain ⟨e, hfind, hexact, hres⟩ :=
      (resolveFromSkillsShList_spec
        [SkillShEntry.mk "pdf-extractor" "own1" "repo1" 100 none,
         SkillShEntry.mk "pdf" "own2" "repo2" 50 none] "pdf").1
        (by decide) (by decide)
    have he : e = SkillShEntry.mk "pdf" "own2" "repo2" 50 none := by
      have : ([SkillShEntry.mk "pdf-extractor" "own1" "repo1" 100 none,
          SkillShEntry.mk "pdf" "own2" "repo2" 50 none].filter
            (isCandidateMatch "pdf")).find? (isExactMatch "pdf") =
          some (SkillShEntry.mk "pdf" "own2" "repo2" 50 none) := by decide
      rw [this] at hfind
      exact (Option.some.inj hfind).symm
    rw [he] at hres
    exact hres
  · exact (resolveFromSkillsShList_spec
      [SkillShEntry.mk "pdf-extractor" "own1" "repo1" 100 none,
       SkillShEntry.mk "pdx" "own2" "repo2" 50 none] "pd").2
      (by decide) (by decide)

/-! Content retrieval (`SkillFetcher`).  The network is an oracle mapping
the index of each HTTP GET (in call order) to its outcome; the trace
records the requested URLs and the backoff sleeps. -/

/-- The outcome of one underlying HTTP GET: a body, a non-ok status, or a
transport failure. -/
inductive HttpResp
  | ok (body : String)
  | httpErr (status : Nat) (statusText : String)
  | netFail (msg : String)
deriving DecidableEq

/-- Embeds `NetworkError`: message, url, the optional statusCode and
retryCount, and the context keys the fetcher writes (`triedBranches`, and
`lastError`/`originalError` merged into one field; the fixed `suggestion`
and `message` strings are not modelled). -/
structure NetworkError where
  message : String
  url : String
  statusCode : Option Nat
  retryCount : Option Nat
  triedBranchesCtx : Option (List String)
  lastErrorCtx : Option String
deriving DecidableEq

/-- The network-call trace: next call index, requested URLs, sleeps (ms). -/
structure FetchTrace where
  k : Nat
  calls : List String
  sleeps : List Nat
deriving DecidableEq

/-- Embeds `SkillFetcher.defaultBranches`. -/
def defaultBranches : List String := ["main", "master", "HEAD"]

/-- Embeds `SkillFetcher.maxRetries`. -/
def maxRetries : Nat := 3

/-- Embeds `SkillFetcher.retryDelayMs`. -/
def retryDelayMs : Nat := 1000

/-- The last candidate branch, `defaultBranches[defaultBranches.length-1]`. -/
def lastBranch : String := defaultBranches.getLastD ""

/-- Embeds `SkillFetcher.fetchUrl`: an ok response yields its body, a
non-ok status becomes a NetworkError "HTTP status: statusText" carrying the
status code, and a transport failure is wrapped as "Failed to fetch URL"
with the original message in the context. -/
def fetchUrl (net : Nat → HttpResp) (url : String) (tr : FetchTrace) :
    Except NetworkError String × FetchTrace :=
  let tr2 : FetchTrace :=
    { k := tr.k + 1, calls := tr.calls ++ [url], sleeps := tr.sleeps }
  match net tr.k with
  | HttpResp.ok body => (Except.ok body, tr2)
  | HttpResp.httpErr status statusText =>
    (Except.error (NetworkError.mk
      ("HTTP " ++ toString status ++ ": " ++ statusText) url
      (some status) none none none), tr2)
  | HttpResp.netFail msg =>
    (Except.error (NetworkError.mk "Failed to fetch URL" url
      none none none (some msg)), tr2)

/-- Embeds the loop of `SkillFetcher.fetchWithRetry` over the remaining
attempt indices (the source's `for` counter): a response whose message
contains "404" is rethrown at once as "Resource not found" (status 404);
any other failure sleeps `retryDelayMs * 2 ^ attempt` — but only when
another attempt remains — and retries; an exhausted budget yields the final
retry error carrying the last underlying message. -/
def fetchWithRetryGo (net : Nat → HttpResp) (url : String) :
    List Nat → Option String → FetchTrace →
    Except NetworkError String × FetchTrace
  | [], lastErrMsg, tr =>
    (Except.error (NetworkError.mk
      ("Failed to fetch after " ++ toString maxRetries ++ " attempts") url
      none (some maxRetries) none
      (some (lastErrMsg.getD "Unknown error"))), tr)
  | attempt :: restAttempts, _, tr =>
    match fetchUrl net url tr with
    | (Except.ok body, tr2) => (Except.ok body, tr2)
    | (Except.error e, tr2) =>
      if strIncludes e.message "404" then
        (Except.error (NetworkError.mk "Resource not found" url
          (some 404) (some attempt) none none), tr2)
      else if attempt < maxRetries - 1 then
        fetchWithRetryGo net url restAttempts (some e.message)
          { tr2 with sleeps := tr2.sleeps ++ [retryDelayMs * 2 ^ attempt] }
      else
        fetchWithRetryGo net url restAttempts (some e.message) tr2

/-- Embeds `SkillFetcher.fetchWithRetry` (the loop runs over attempt
indices 0, 1, ..., maxRetries - 1). -/
def fetchWithRetry (net : Nat → HttpResp) (url : String) (tr : FetchTrace) :
    Except NetworkError String × FetchTrace :=
  fetchWithRetryGo net url (List.range maxRetries) none tr

/-- Embeds `SkillFetcher.constructGitHubRawUrl`. -/
def constructGitHubRawUrl (owner repo branch skillPath : String) : String :=
  let cleanPath :=
    if "/".toList.isPrefixOf skillPath.toList
    then String.mk (skillPath.toList.drop 1) else skillPath
  "https://raw.githubusercontent.com" ++ "/" ++ owner ++ "/" ++ repo ++ "/"
    ++ branch ++ "/" ++ cleanPath ++ "/SKILL.md"

/-- The fetched document (the wall-clock `fetchedAt` field is not
modelled). -/
structure FetchedSkill where
  raw : String
  url : String
  source : ResolvedSkill
deriving DecidableEq

/-- Embeds the 404 test of `fetchSkill` on a caught error: the message
contains "404" or the status code is 404. -/
def errIs404 (e : NetworkError) : Bool :=
  strIncludes e.message "404" || e.statusCode == some 404

/-- Embeds the branch loop of `SkillFetcher.fetchSkill`: try each candidate
branch; a 404 on the last branch is the aggregated not-found error carrying
the tried branches; any other failure on the last branch is rethrown as-is;
otherwise advance to the next branch.  The argument after the branch list
accumulates `triedBranches`; the `Option String` is the last error message. -/
def fetchSkillGo (net : Nat → HttpResp) (resolved : ResolvedSkill) :
    List String → List String → Option String → FetchTrace →
    Except NetworkError FetchedSkill × FetchTrace
  | [], tried, lastErrMsg, tr =>
    (Except.error (NetworkError.mk
      ("Failed to fetch skill from " ++ resolved.owner ++ "/" ++ resolved.repo
        ++ "/" ++ resolved.skillPath) resolved.fullUrl
      none none (some tried) (some (lastErrMsg.getD "Unknown error"))), tr)
  | branch :: restBranches, tried, _, tr =>
    let url := constructGitHubRawUrl resolved.owner resolved.repo branch
      resolved.skillPath
    let tried2 := tried ++ [branch]
    match fetchWithRetry net url tr with
    | (Except.ok content, tr2) =>
      (Except.ok (FetchedSkill.mk content url resolved), tr2)
    | (Except.error e, tr2) =>
      if errIs404 e then
        if branch = lastBranch then
          (Except.error (NetworkError.mk
            ("Skill not found at " ++ resolved.owner ++ "/" ++ resolved.repo
              ++ "/" ++ resolved.skillPath) url
            (some 404) none (some tried2) none), tr2)
        else fetchSkillGo net resolved restBranches tried2 (some e.message) tr2
      else
        if branch = lastBranch then (Except.error e, tr2)
        else fetchSkillGo net resolved restBranches tried2 (some e.message) tr2

/-- Embeds `SkillFetcher.fetchSkill`. -/
def fetchSkill (net : Nat → HttpResp) (resolved : ResolvedSkill) :
    Except NetworkError FetchedSkill × FetchTrace :=
  fetchSkillGo net resolved defaultBranches [] none (FetchTrace.mk 0 [] [])

theorem strIncludes_http404 (text : String) :
    strIncludes ("HTTP " ++ toString (404 : Nat) ++ ": " ++ text) "404" = true := rfl

/-- A first response with status 404 ends the per-ref retry loop at once:
one call, no sleep, the not-found error. -/
theorem fetchWithRetry_404 (net : Nat → HttpResp) (url : String)
    (tr : FetchTrace) (text : String)
    (hnet : net tr.k = HttpResp.httpErr 404 text) :
    fetchWithRetry net url tr =
      (Except.error (NetworkError.mk "Resource not found" url (some 404)
        (some 0) none none),
       FetchTrace.mk (tr.k + 1) (tr.calls ++ [url]) tr.sleeps) := by
  show fetchWithRetryGo net url (0 :: [1, 2]) none tr = _
  rw [fetchWithRetryGo]
  simp only [fetchUrl, hnet]
  simp [strIncludes_http404]

/-- A first ok response ends the per-ref retry loop at once. -/
theorem fetchWithRetry_ok (net : Nat → HttpResp) (url : String)
    (tr : FetchTrace) (body : String)
    (hnet : net tr.k = HttpResp.ok body) :
    fetchWithRetry net url tr =
      (Except.ok body,
       FetchTrace.mk (tr.k + 1) (tr.calls ++ [url]) tr.sleeps) := by
  show fetchWithRetryGo net url (0 :: [1, 2]) none tr = _
  rw [fetchWithRetryGo]
  simp [fetchUrl, hnet]

/-- Three transport failures exhaust the per-ref retry budget: three calls,
sleeps of 1000 ms and 2000 ms only, and the final retry error. -/
theorem fetchWithRetry_allNetFail (net : Nat → HttpResp) (url : String)
    (tr : FetchTrace) (m0 m1 m2 : String)
    (h0 : net tr.k = HttpResp.netFail m0)
    (h1 : net (tr.k + 1) = HttpResp.netFail m1)
    (h2 : net (tr.k + 2) = HttpResp.netFail m2) :
    fetchWithRetry net url tr =
      (Except.error (NetworkError.mk "Failed to fetch after 3 attempts" url
        none (some 3) none (some "Failed to fetch URL")),
       FetchTrace.mk (tr.k + 3) (tr.calls ++ [url, url, url])
         (tr.sleeps ++ [1000, 2000])) := by
  have hs : strIncludes "Failed to fetch URL" "404" = false := rfl
  show fetchWithRetryGo net url (0 :: [1, 2]) none tr = _
  simp [fetchWithRetryGo, fetchUrl, h0, h1, h2, hs, maxRetries, retryDelayMs]
  rfl

/-- C3 (amended): a 404 response is terminal for its ref — returned after a
single call with no sleep — and makes the branch loop advance immediately
to the next candidate ref; any other failure is retried up to 3 attempts
total with backoff sleeps of 1 s and then 2 s (no sleep follows the final
attempt, so the 4 s value of the `1000 * 2 ^ attempt` formula is never
used); consequently a coordinate that is 404 on `main` and present on
`master` is fetched after exactly two candidate-ref attempts, two network
calls and no retry sleeps. -/
theorem fetchRetry_spec :
    (∀ (net : Nat → HttpResp) (url : String) (tr : FetchTrace) (text : String),
      net tr.k = HttpResp.httpErr 404 text →
      fetchWithRetry net url tr =
        (Except.error (NetworkError.mk "Resource not found" url (some 404)
          (some 0) none none),
         FetchTrace.mk (tr.k + 1) (tr.calls ++ [url]) tr.sleeps)) ∧
    (∀ (net : Nat → HttpResp) (resolved : ResolvedSkill) (text branch : String)
        (rest tried : List String) (lastE : Option String) (tr : FetchTrace),
      net tr.k = HttpResp.httpErr 404 text → branch ≠ lastBranch →
      fetchSkillGo net resolved (branch :: rest) tried lastE tr =
        fetchSkillGo net resolved rest (tried ++ [branch])
          (some "Resource not found")
          (FetchTrace.mk (tr.k + 1)
            (tr.calls ++ [constructGitHubRawUrl resolved.owner resolved.repo
              branch resolved.skillPath]) tr.sleeps)) ∧
    (∀ (net : Nat → HttpResp) (url : String) (tr : FetchTrace) (m0 m1 m2 : String),
      net tr.k = HttpResp.netFail m0 → net (tr.k + 1) = HttpResp.netFail m1 →
      net (tr.k + 2) = HttpResp.netFail m2 →
      fetchWithRetry net url tr =
        (Except.error (NetworkError.mk "Failed to fetch after 3 attempts" url
          none (some 3) none (some "Failed to fetch URL")),
         FetchTrace.mk (tr.k + 3) (tr.calls ++ [url, url, url])
           (tr.sleeps ++ [1000, 2000]))) ∧
    (∀ (net : Nat → HttpResp) (resolved : ResolvedSkill) (text body : String),
      net 0 = HttpResp.httpErr 404 text → net 1 = HttpResp.ok body →
      fetchSkill net resolved =
        (Except.ok (FetchedSkill.mk body
          (constructGitHubRawUrl resolved.owner resolved.repo "master"
            resolved.skillPath) resolved),
         FetchTrace.mk 2
           [constructGitHubRawUrl resolved.owner resolved.repo "main"
              resolved.skillPath,
            constructGitHubRawUrl resolved.owner resolved.repo "master"
              resolved.skillPath] [])) := by
  have h404e : errIs404 (NetworkError.mk "Resource not found" "" (some 404)
      (some 0) none none) = true := by
    simp [errIs404]
  refine ⟨fetchWithRetry_404, ?_, fetchWithRetry_allNetFail, ?_⟩
  · intro net resolved text branch rest tried lastE tr hnet hbr
    rw [fetchSkillGo]
    rw [fetchWithRetry_404 net _ tr text hnet]
    have h1 : errIs404 (NetworkError.mk "Resource not found"
        (constructGitHubRawUrl resolved.owner resolved.repo branch
          resolved.skillPath) (some 404) (some 0) none none) = true := by
      simp [errIs404]
    simp only [h1, if_true, if_neg hbr]
  · intro net resolved text body h0 h1
    unfold fetchSkill
    rw [show defaultBranches = "main" :: ["master", "HEAD"] from rfl]
    rw [fetchSkillGo]
    rw [fetchWithRetry_404 net _ (FetchTrace.mk 0 [] []) text h0]
    have he : errIs404 (NetworkError.mk "Resource not found"
        (constructGitHubRawUrl resolved.owner resolved.repo "main"
          resolved.skillPath) (some 404) (some 0) none none) = true := by
      simp [errIs404]
    simp only [he, if_true]
    rw [if_neg (by decide : ¬ ("main" : String) = lastBranch)]
    rw [fetchSkillGo]
    rw [fetchWithRetry_ok net _ (FetchTrace.mk (0 + 1)
      ([] ++ [constructGitHubRawUrl resolved.owner resolved.repo "main"
        resolved.skillPath]) []) body h1]
    simp

/-- Witness for C3 (amended) at a concrete network: 404 on `main`, content
on `master`. -/
theorem fetchRetry_spec_witness :
    fetchSkill
      (fun k => if k = 0 then HttpResp.httpErr 404 "Not Found"
                else HttpResp.ok "content")
      (ResolvedSkill.mk "o" "r" "skills/pdf" "full" SkillSource.github none) =
      (Except.ok (FetchedSkill.mk "content"
        "https://raw.githubusercontent.com/o/r/master/skills/pdf/SKILL.md"
        (ResolvedSkill.mk "o" "r" "skills/pdf" "full" SkillSource.github none)),
       FetchTrace.mk 2
         ["https://raw.githubusercontent.com/o/r/main/skills/pdf/SKILL.md",
          "https://raw.githubusercontent.com/o/r/master/skills/pdf/SKILL.md"]
         []) := by
  have h := fetchRetry_spec.2.2.2
    (fun k => if k = 0 then HttpResp.httpErr 404 "Not Found"
              else HttpResp.ok "content")
    (ResolvedSkill.mk "o" "r" "skills/pdf" "full" SkillSource.github none)
    "Not Found" "content" (by decide) (by decide)
  rw [h]
  decide

/-- Counterexample for C3 as stated: with every response a transport
failure, one ref's retry run sleeps exactly 1000 ms and 2000 ms — a 4000 ms
backoff delay never occurs. -/
theorem fetchWithRetry_no_4000ms_delay :
    (fetchWithRetry (fun _ => HttpResp.netFail "connection reset")
        "https://raw.githubusercontent.com/o/r/main/skills/pdf/SKILL.md"
        (FetchTrace.mk 0 [] [])).2.sleeps = [1000, 2000] ∧
    ¬ (4000 ∈ (fetchWithRetry (fun _ => HttpResp.netFail "connection reset")
        "https://raw.githubusercontent.com/o/r/main/skills/pdf/SKILL.md"
        (FetchTrace.mk 0 [] [])).2.sleeps) := by decide

/-- C4 (amended): when every candidate ref fails, the thrown error depends
on the kind of the last failure: a 404 everywhere yields the aggregated
not-found error that carries the full tried-ref list (and status 404) but
no underlying transport message, while a transport failure everywhere
rethrows the last per-ref retry-exhaustion error, which carries the last
underlying error message but no tried-ref list. -/
theorem fetchSkill_exhaustion_spec :
    (∀ (net : Nat → HttpResp) (resolved : ResolvedSkill) (t0 t1 t2 : String),
      net 0 = HttpResp.httpErr 404 t0 → net 1 = HttpResp.httpErr 404 t1 →
      net 2 = HttpResp.httpErr 404 t2 →
      (fetchSkill net resolved).1 = Except.error (NetworkError.mk
        ("Skill not found at " ++ resolved.owner ++ "/" ++ resolved.repo
          ++ "/" ++ resolved.skillPath)
        (constructGitHubRawUrl resolved.owner resolved.repo "HEAD"
          resolved.skillPath)
        (some 404) none (some ["main", "master", "HEAD"]) none)) ∧
    (∀ (resolved : ResolvedSkill) (f : Nat → String),
      (fetchSkill (fun j => HttpResp.netFail (f j)) resolved).1 =
        Except.error (NetworkError.mk "Failed to fetch after 3 attempts"
          (constructGitHubRawUrl resolved.owner resolved.repo "HEAD"
            resolved.skillPath)
          none (some 3) none (some "Failed to fetch URL"))) := by
  constructor
  · intro net resolved t0 t1 t2 h0 h1 h2
    unfold fetchSkill
    rw [show defaultBranches = "main" :: ["master", "HEAD"] from rfl]
    rw [fetchSkillGo]
    rw [fetchWithRetry_404 net _ (FetchTrace.mk 0 [] []) t0 h0]
    have he : ∀ u, errIs404 (NetworkError.mk "Resource not found" u (some 404)
        (some 0) none none) = true := by
      intro u
      simp [errIs404]
    simp only [he, if_true]
    rw [if_neg (by decide : ¬ ("main" : String) = lastBranch)]
    rw [fetchSkillGo]
    rw [fetchWithRetry_404 net _ _ t1 h1]
    simp only [he, if_true]
    rw [if_neg (by decide : ¬ ("master" : String) = lastBranch)]
    rw [fetchSkillGo]
    rw [fetchWithRetry_404 net _ _ t2 h2]
    simp only [he, if_true]
    rw [if_pos (by decide : ("HEAD" : String) = lastBranch)]
    simp
  · intro resolved f
    unfold fetchSkill
    rw [show defaultBranches = "main" :: ["master", "HEAD"] from rfl]
    have hno404 : ∀ u, errIs404 (NetworkError.mk
        "Failed to fetch after 3 attempts" u none (some 3) none
        (some "Failed to fetch URL")) = false := by
      intro u
      simp [errIs404, strIncludes]
      decide
    rw [fetchSkillGo]
    rw [fetchWithRetry_allNetFail _ _ (FetchTrace.mk 0 [] []) (f 0) (f 1) (f 2)
      rfl rfl rfl]
    simp only [hno404, if_false]
    rw [if_neg (by decide : ¬ ("main" : String) = lastBranch)]
    rw [fetchSkillGo]
    rw [fetchWithRetry_allNetFail _ _ _ (f 3) (f 4) (f 5) rfl rfl rfl]
    simp only [hno404, if_false]
    rw [if_neg (by decide : ¬ ("master" : String) = lastBranch)]
    rw [fetchSkillGo]
    rw [fetchWithRetry_allNetFail _ _ _ (f 6) (f 7) (f 8) rfl rfl rfl]
    simp [hno404, lastBranch, defaultBranches]

/-- Witness for C4 (amended) at concrete networks failing on every ref. -/
theorem fetchSkill_exhaustion_spec_witness :
    (fetchSkill (fun _ => HttpResp.httpErr 404 "Not Found")
        (ResolvedSkill.mk "o" "r" "skills/pdf" "full" SkillSource.github none)).1
      = Except.error (NetworkError.mk "Skill not found at o/r/skills/pdf"
          "https://raw.githubusercontent.com/o/r/HEAD/skills/pdf/SKILL.md"
          (some 404) none (some ["main", "master", "HEAD"]) none) ∧
    (fetchSkill (fun _ => HttpResp.netFail "connection reset")
        (ResolvedSkill.mk "o" "r" "skills/pdf" "full" SkillSource.github none)).1
      = Except.error (NetworkError.mk "Failed to fetch after 3 attempts"
          "https://raw.githubusercontent.com/o/r/HEAD/skills/pdf/SKILL.md"
          none (some 3) none (some "Failed to fetch URL")) := by
  constructor
  · have h := fetchSkill_exhaustion_spec.1 (fun _ => HttpResp.httpErr 404 "Not Found")
      (ResolvedSkill.mk "o" "r" "skills/pdf" "full" SkillSource.github none)
      "Not Found" "Not Found" "Not Found" (by decide) (by decide) (by decide)
    rw [h]
    decide
  · have h := fetchSkill_exhaustion_spec.2
      (ResolvedSkill.mk "o" "r" "skills/pdf" "full" SkillSource.github none)
      (fun _ => "connection reset")
    rw [h]
    decide

/-- Counterexample for C4 as stated: with a transport failure on every ref,
the thrown exhaustion error does not carry the list of attempted refs (its
tried-branches context is absent). -/
theorem fetchSkill_exhaustion_counterexample :
    (fetchSkill (fun _ => HttpResp.netFail "connection reset")
        (ResolvedSkill.mk "o" "r" "skills/pdf" "full" SkillSource.github none)).1
      = Except.error (NetworkError.mk "Failed to fetch after 3 attempts"
          "https://raw.githubusercontent.com/o/r/HEAD/skills/pdf/SKILL.md"
          none (some 3) none (some "Failed to fetch URL")) ∧
    (NetworkError.mk "Failed to fetch after 3 attempts"
        "https://raw.githubusercontent.com/o/r/HEAD/skills/pdf/SKILL.md"
        none (some 3) none
        (some "Failed to fetch URL")).triedBranchesCtx = none := by decide

/-- C9: an identifier containing the separator resolves purely from its
text: the directory cache is unchanged and no directory fetch happens. -/
theorem resolve_slash_no_directory (dirFetch : Except String (List SkillShEntry))
    (now : Nat) (st : ResolverState) (identifier : String)
    (h : identifier.toList.contains '/' = true) :
    resolve dirFetch now st identifier = (resolveFromGitHub identifier, st, 0) := by
  unfold resolve
  rw [h]
  simp

/-- Witness for C9 at a concrete two-segment identifier and a concrete
populated cache. -/
theorem resolve_slash_no_directory_witness :
    resolve (Except.error "offline") 0
      { skillsCache := some ([SkillShEntry.mk "pdf" "o" "r" 1 none], 0) }
      "vercel-labs/agent-skills/my-skill" =
      (resolveFromGitHub "vercel-labs/agent-skills/my-skill",
       { skillsCache := some ([SkillShEntry.mk "pdf" "o" "r" 1 none], 0) }, 0) := by
  exact resolve_slash_no_directory (Except.error "offline") 0
    { skillsCache := some ([SkillShEntry.mk "pdf" "o" "r" 1 none], 0) }
    "vercel-labs/agent-skills/my-skill" (by decide)

/-! Import workflow (`importSkillHandler`).  The sub-handlers it awaits
(fetch-skill and validate-skill, which are not part of the sources here,
and the two converters) are oracle parameters: the environment holds the
value each call would produce, and the handler's trace records which
sub-handlers were actually invoked, in order. -/

/-- One sub-handler invocation of the import workflow. -/
inductive ImportStep
  | fetchStep
  | validateStep
  | convertSteeringStep
  | convertPowerStep
deriving DecidableEq

/-- The fields of a fetch-skill result the import workflow consumes. -/
structure FetchHandlerOut where
  content : String
  url : String
deriving DecidableEq

/-- The fields of a convert-to-steering result the import workflow
consumes (`metadata.originalSkill` flattened). -/
structure SteeringHandlerOut where
  steeringContent : String
  filename : String
  originalSkill : String
deriving DecidableEq

/-- The fields of a convert-to-power result the import workflow consumes. -/
structure PowerHandlerOut where
  powerContent : String
  powerName : String
deriving DecidableEq

/-- The outcomes of the awaited sub-handlers (`Except.error` models a
thrown error, caught by the handler's catch block). -/
structure ImportEnv where
  fetchResult : Except String FetchHandlerOut
  validateResult : ValidationResult
  steeringResult : Except String SteeringHandlerOut
  powerResult : Except String PowerHandlerOut

/-- Embeds `ImportSkillArgs` (an absent `skipValidation` is `false`). -/
structure ImportSkillArgs where
  identifier : String
  outputFormat : String
  skipValidation : Bool
deriving DecidableEq

/-- Embeds `ImportSkillResult` (the `metadata` object flattened into
`skillName`, `sourceUrl`, `outputFormat` and `validationResult`). -/
structure ImportSkillResult where
  success : Bool
  content : String
  filename : String
  targetPath : String
  skillName : String
  sourceUrl : String
  outputFormat : String
  validationResult : Option ValidationResult
  error : Option String
deriving DecidableEq

/-- Embeds `importSkillHandler`: argument checks, fetch, validation (unless
skipped; an invalid verdict blocks the import with the joined issue
descriptions), then conversion to the requested format; any thrown error is
caught and returned as a failure result. -/
def importSkillHandler (env : ImportEnv) (args : ImportSkillArgs) :
    ImportSkillResult × List ImportStep :=
  if (trimEnds isJsSpace args.identifier.toList).isEmpty then
    (ImportSkillResult.mk false "" "" "" args.identifier "" args.outputFormat
      none (some "Skill identifier is required"), [])
  else if ¬ (args.outputFormat = "steering" ∨ args.outputFormat = "power") then
    (ImportSkillResult.mk false "" "" "" args.identifier "" args.outputFormat
      none (some "Output format must be \"steering\" or \"power\""), [])
  else
    match env.fetchResult with
    | Except.error msg =>
      (ImportSkillResult.mk false "" "" "" args.identifier "" args.outputFormat
        none (some msg), [ImportStep.fetchStep])
    | Except.ok fr =>
      if args.skipValidation = false ∧ env.validateResult.isValid = false then
        (ImportSkillResult.mk false "" "" "" args.identifier fr.url
          args.outputFormat (some env.validateResult)
          (some ("Security validation failed: " ++ String.intercalate ", "
            (env.validateResult.issues.map (fun i => i.description)))),
         [ImportStep.fetchStep, ImportStep.validateStep])
      else
        let validationResult : Option ValidationResult :=
          if args.skipValidation then none else some env.validateResult
        let steps0 : List ImportStep :=
          if args.skipValidation then [ImportStep.fetchStep]
          else [ImportStep.fetchStep, ImportStep.validateStep]
        if args.outputFormat = "steering" then
          match env.steeringResult with
          | Except.ok c =>
            (ImportSkillResult.mk true c.steeringContent c.filename
              (".kiro/steering/" ++ c.filename) c.originalSkill fr.url
              args.outputFormat validationResult none,
             steps0 ++ [ImportStep.convertSteeringStep])
          | Except.error msg =>
            (ImportSkillResult.mk false "" "" "" args.identifier ""
              args.outputFormat none (some msg),
             steps0 ++ [ImportStep.convertSteeringStep])
        else
          match env.powerResult with
          | Except.ok c =>
            (ImportSkillResult.mk true c.powerContent "POWER.md"
              ("~/.kiro/powers/" ++ c.powerName ++ "/POWER.md") c.powerName
              fr.url args.outputFormat validationResult none,
             steps0 ++ [ImportStep.convertPowerStep])
          | Except.error msg =>
            (ImportSkillResult.mk false "" "" "" args.identifier ""
              args.outputFormat none (some msg),
             steps0 ++ [ImportStep.convertPowerStep])

/-- C2: with validation not skipped, an invalid verdict on the fetched
content makes the import fail with the joined issue descriptions and
neither converter is ever invoked; with validation skipped, the validator
is never invoked, and conversion proceeds once the fetch succeeded. -/
theorem importSkillHandler_validation_spec (env : ImportEnv)
    (args : ImportSkillArgs) :
    (args.skipValidation = false →
      (trimEnds isJsSpace args.identifier.toList).isEmpty = false →
      (args.outputFormat = "steering" ∨ args.outputFormat = "power") →
      ∀ fr, env.fetchResult = Except.ok fr →
      env.validateResult.isValid = false →
      (importSkillHandler env args).1.success = false ∧
      (importSkillHandler env args).1.error =
        some ("Security validation failed: " ++ String.intercalate ", "
          (env.validateResult.issues.map (fun i => i.description))) ∧
      ImportStep.convertSteeringStep ∉ (importSkillHandler env args).2 ∧
      ImportStep.convertPowerStep ∉ (importSkillHandler env args).2) ∧
    (args.skipValidation = true →
      ImportStep.validateStep ∉ (importSkillHandler env args).2) ∧
    (args.skipValidation = true →
      (trimEnds isJsSpace args.identifier.toList).isEmpty = false →
      (args.outputFormat = "steering" ∨ args.outputFormat = "power") →
      ∀ fr, env.fetchResult = Except.ok fr →
      (ImportStep.convertSteeringStep ∈ (importSkillHandler env args).2 ∨
       ImportStep.convertPowerStep ∈ (importSkillHandler env args).2)) := by
  refine ⟨?_, ?_, ?_⟩
  · intro hskip hne hfmt fr hfetch hinvalid
    unfold importSkillHandler
    rw [hfetch]
    rw [if_neg (fun hc => by rw [hc] at hne; exact absurd hne (by decide))]
    rw [if_neg (by simp [hfmt])]
    try dsimp only
    rw [if_pos ⟨hskip, hinvalid⟩]
    refine ⟨rfl, rfl, ?_, ?_⟩ <;> simp
  · intro hskip
    unfold importSkillHandler
    by_cases h1 : (trimEnds isJsSpace args.identifier.toList).isEmpty = true
    · rw [if_pos h1]
      simp
    · rw [if_neg h1]
      by_cases h2 : args.outputFormat = "steering" ∨ args.outputFormat = "power"
      · rw [if_neg (by simp [h2])]
        cases hfetch : env.fetchResult with
        | error msg => simp
        | ok fr =>
          try dsimp only
          rw [if_neg (fun hc => by rw [hskip] at hc; exact absurd hc.1 (by decide))]
          try dsimp only
          by_cases h3 : args.outputFormat = "steering"
          · rw [if_pos h3]
            cases env.steeringResult <;> simp [hskip]
          · rw [if_neg h3]
            cases env.powerResult <;> simp [hskip]
      · rw [if_pos (by simpa using h2)]
        simp
  · intro hskip hne hfmt fr hfetch
    unfold importSkillHandler
    rw [hfetch]
    rw [if_neg (fun hc => by rw [hc] at hne; exact absurd hne (by decide))]
    rw [if_neg (by simp [hfmt])]
    try dsimp only
    rw [if_neg (fun hc => by rw [hskip] at hc; exact absurd hc.1 (by decide))]
    try dsimp only
    by_cases h3 : args.outputFormat = "steering"
    · rw [if_pos h3]
      refine Or.inl ?_
      cases env.steeringResult <;> simp [hskip]
    · rw [if_neg h3]
      refine Or.inr ?_
      cases env.powerResult <;> simp [hskip]

/-- Witness for C2 at concrete environments: a blocked unsafe import, a
skipped-validation import that converts, and their traces. -/
theorem importSkillHandler_validation_spec_witness :
    ((importSkillHandler
        (ImportEnv.mk (Except.ok (FetchHandlerOut.mk "body" "https://u"))
          (ValidationResult.mk false
            [SecurityIssue.mk IssueType.dangerous_command "bad rm" "Line 1",
             SecurityIssue.mk IssueType.untrusted_source "bad origin" "https://u"]
            Severity.unsafeLevel)
          (Except.ok (SteeringHandlerOut.mk "sc" "f.md" "orig"))
          (Except.ok (PowerHandlerOut.mk "pc" "pn")))
        (ImportSkillArgs.mk "my-skill" "steering" false)).1.error =
      some "Security validation failed: bad rm, bad origin" ∧
     ImportStep.convertSteeringStep ∉ (importSkillHandler
        (ImportEnv.mk (Except.ok (FetchHandlerOut.mk "body" "https://u"))
          (ValidationResult.mk false
            [SecurityIssue.mk IssueType.dangerous_command "bad rm" "Line 1",
             SecurityIssue.mk IssueType.untrusted_source "bad origin" "https://u"]
            Severity.unsafeLevel)
          (Except.ok (SteeringHandlerOut.mk "sc" "f.md" "orig"))
          (Except.ok (PowerHandlerOut.mk "pc" "pn")))
        (ImportSkillArgs.mk "my-skill" "steering" false)).2) ∧
    (ImportStep.validateStep ∉ (importSkillHandler
        (ImportEnv.mk (Except.ok (FetchHandlerOut.mk "body" "https://u"))
          (ValidationResult.mk false [] Severity.unsafeLevel)
          (Except.ok (SteeringHandlerOut.mk "sc" "f.md" "orig"))
          (Except.ok (PowerHandlerOut.mk "pc" "pn")))
        (ImportSkillArgs.mk "my-skill" "steering" true)).2 ∧
     ImportStep.convertSteeringStep ∈ (importSkillHandler
        (ImportEnv.mk (Except.ok (FetchHandlerOut.mk "body" "https://u"))
          (ValidationResult.mk false [] Severity.unsafeLevel)
          (Except.ok (SteeringHandlerOut.mk "sc" "f.md" "orig"))
          (Except.ok (PowerHandlerOut.mk "pc" "pn")))
        (ImportSkillArgs.mk "my-skill" "steering" true)).2) := by
  refine ⟨⟨?_, ?_⟩, ?_, ?_⟩
  · have h := (importSkillHandler_validation_spec
      (ImportEnv.mk (Except.ok (FetchHandlerOut.mk "body" "https://u"))
        (ValidationResult.mk false
          [SecurityIssue.mk IssueType.dangerous_command "bad rm" "Line 1",
           SecurityIssue.mk IssueType.untrusted_source "bad origin" "https://u"]
          Severity.unsafeLevel)
        (Except.ok (SteeringHandlerOut.mk "sc" "f.md" "orig"))
        (Except.ok (PowerHandlerOut.mk "pc" "pn")))
      (ImportSkillArgs.mk "my-skill" "steering" false)).1
      rfl (by decide) (Or.inl rfl) (FetchHandlerOut.mk "body" "https://u") rfl rfl
    exact h.2.1.trans (by decide)
  · exact ((importSkillHandler_validation_spec _ _).1
      rfl (by decide) (Or.inl rfl) (FetchHandlerOut.mk "body" "https://u") rfl rfl).2.2.1
  · exact (importSkillHandler_validation_spec _ _).2.1 rfl
  · have h := ((importSkillHandler_validation_spec
      (ImportEnv.mk (Except.ok (FetchHandlerOut.mk "body" "https://u"))
        (ValidationResult.mk false [] Severity.unsafeLevel)
        (Except.ok (SteeringHandlerOut.mk "sc" "f.md" "orig"))
        (Except.ok (PowerHandlerOut.mk "pc" "pn")))
      (ImportSkillArgs.mk "my-skill" "steering" true)).2.2
      rfl (by decide) (Or.inl rfl) (FetchHandlerOut.mk "body" "https://u") rfl)
    rcases h with h | h
    · exact h
    · exact absurd h (by decide)

end SkillLoader
